import Mathlib

/-!
Verification of `src/ai_debug_tool.py` (an AI prompt-debugging desktop tool).

The file embeds, shallowly and executably, the parts of the program the
claims are about:

* a model of Python values produced by `json.loads` (`Json`), together with
  a fuel-based JSON reader `jsonLoads` mirroring the strict `json` module
  grammar (objects, arrays, strings with escapes, numbers, literals,
  including the non-standard `NaN` and `Infinity` constants `json.loads`
  accepts by default);
* the server-sent-event stream loop of `call_ai_stream` (lines 250-287),
  including the dynamic-typing errors Python raises on unexpected payload
  shapes, modelled with `Except PyError`;
* the request-envelope construction of `call_ai` / `call_ai_stream`
  (lines 174-183 and 220-231);
* the response extraction of `call_ai` (line 202);
* the temperature-option validation of `AIDebugTool._send_request_thread`
  (lines 745-753);
* the per-page loop of `pdf_to_images` (lines 45-74), with the external
  rasterisation/encoding libraries abstracted as a parameter;
* the `configparser` fragment exercised by the `Config` class
  (lines 118-155): per-key set with interpolation syntax checking, the
  INI writer, the INI reader and `get` with basic interpolation.
-/

/-- Python values decodable from JSON. Numbers keep their source lexeme
(the claims never compute with numeric payloads, but zero-ness of the
lexeme decides Python truthiness). Objects are ordered key/value lists
with distinct keys, matching `dict` insertion order. -/
inductive Json where
  | null
  | bool (b : Bool)
  | num (lexeme : String)
  | str (s : String)
  | arr (elems : List Json)
  | obj (entries : List (String × Json))
deriving Repr

/-- Errors Python raises in the embedded fragments. -/
inductive PyError where
  | typeError
  | keyError
  | indexError
  | attributeError
deriving Repr, DecidableEq

/-- ASCII whitespace stripped by Python `str.strip()` (the Unicode
whitespace `strip` also removes does not occur in the embedded data). -/
def isPySpace (c : Char) : Bool :=
  c = ' ' || c = '\t' || c = '\n' || c = '\r' || c = '\x0b' || c = '\x0c'

/-- Python `str.strip()` on the left. -/
def pyStripLeftChars (cs : List Char) : List Char :=
  cs.dropWhile isPySpace

/-- Python `str.strip()` on the right. -/
def pyStripRightChars (cs : List Char) : List Char :=
  (cs.reverse.dropWhile isPySpace).reverse

/-- Python `str.strip()`. -/
def pyStrip (s : String) : String :=
  String.mk (pyStripRightChars (pyStripLeftChars s.data))

/-- Python `str.rstrip()`. -/
def pyRstrip (s : String) : String :=
  String.mk (pyStripRightChars s.data)

/-- JSON inter-token whitespace as accepted by the `json` module. -/
def skipJsonWs (cs : List Char) : List Char :=
  cs.dropWhile (fun c => c = ' ' || c = '\t' || c = '\n' || c = '\r')

/-- Value of a hexadecimal digit, for string `\u` escapes. -/
def hexDigitVal (c : Char) : Option Nat :=
  if '0' ≤ c ∧ c ≤ '9' then some (c.toNat - '0'.toNat)
  else if 'a' ≤ c ∧ c ≤ 'f' then some (c.toNat - 'a'.toNat + 10)
  else if 'A' ≤ c ∧ c ≤ 'F' then some (c.toNat - 'A'.toNat + 10)
  else none

/-- Body of a JSON string after the opening quote: returns the decoded
characters and the input remaining after the closing quote. Mirrors the
strict `json` scanner: recognised escapes only, no raw control
characters. -/
def parseStringBody : List Char → Option (List Char × List Char)
  | [] => none
  | '"' :: rest => some ([], rest)
  | '\\' :: 'u' :: a :: b :: c :: d :: rest =>
    match hexDigitVal a, hexDigitVal b, hexDigitVal c, hexDigitVal d with
    | some ha, some hb, some hc, some hd =>
      match parseStringBody rest with
      | some (s, r) => some (Char.ofNat (((ha * 16 + hb) * 16 + hc) * 16 + hd) :: s, r)
      | none => none
    | _, _, _, _ => none
  | '\\' :: e :: rest =>
    let repl : Option Char :=
      if e = '"' then some '"'
      else if e = '\\' then some '\\'
      else if e = '/' then some '/'
      else if e = 'b' then some '\x08'
      else if e = 'f' then some '\x0c'
      else if e = 'n' then some '\n'
      else if e = 'r' then some '\r'
      else if e = 't' then some '\t'
      else none
    match repl with
    | some ch =>
      match parseStringBody rest with
      | some (s, r) => some (ch :: s, r)
      | none => none
    | none => none
  | ['\\'] => none
  | c :: rest =>
    if c.toNat < 0x20 then none
    else
      match parseStringBody rest with
      | some (s, r) => some (c :: s, r)
      | none => none

/-- Decimal digit test. -/
def isDigitChar (c : Char) : Bool := '0' ≤ c && c ≤ '9'

/-- Lexes a JSON number (strict grammar: `-? int frac? exp?`, no leading
zeros), returning its lexeme and the remaining input. -/
def parseNumberLex (cs : List Char) : Option (List Char × List Char) :=
  let (neg, cs1) :=
    match cs with
    | '-' :: rest => (['-'], rest)
    | _ => (([] : List Char), cs)
  match cs1 with
  | '0' :: rest => afterInt (neg ++ ['0']) rest
  | c :: _ =>
    if isDigitChar c && c ≠ '0' then
      let digits := cs1.takeWhile isDigitChar
      afterInt (neg ++ digits) (cs1.dropWhile isDigitChar)
    else none
  | [] => none
where
  /-- Optional fraction then optional exponent. -/
  afterInt (acc : List Char) (cs : List Char) : Option (List Char × List Char) :=
    match cs with
    | '.' :: rest =>
      let digits := rest.takeWhile isDigitChar
      if digits.isEmpty then none
      else afterFrac (acc ++ ['.'] ++ digits) (rest.dropWhile isDigitChar)
    | _ => afterFrac acc cs
  /-- Optional exponent part. -/
  afterFrac (acc : List Char) (cs : List Char) : Option (List Char × List Char) :=
    match cs with
    | e :: rest =>
      if e = 'e' || e = 'E' then
        let (sign, rest2) :=
          match rest with
          | '+' :: r => (['+'], r)
          | '-' :: r => (['-'], r)
          | _ => (([] : List Char), rest)
        let digits := rest2.takeWhile isDigitChar
        if digits.isEmpty then none
        else some (acc ++ [e] ++ sign ++ digits, rest2.dropWhile isDigitChar)
      else some (acc, cs)
    | [] => some (acc, cs)

/-- Python `dict` assignment `d[k] = v` on an ordered entry list: replaces
the value in place when the key exists, appends otherwise. -/
def setKey : List (String × Json) → String → Json → List (String × Json)
  | [], k, v => [(k, v)]
  | (k0, v0) :: rest, k, v =>
    if k0 = k then (k, v) :: rest else (k0, v0) :: setKey rest k v

/-- Lookup in an ordered entry list (Python `k in d` / `d[k]`). -/
def lookupKey : List (String × Json) → String → Option Json
  | [], _ => none
  | (k0, v) :: rest, k => if k0 = k then some v else lookupKey rest k

/-- Parsing mode of the fuel-indexed JSON reader: a single value, the
element loop of an array, or the member loop of an object. -/
inductive PMode where
  | value
  | arrElems (acc : List Json)
  | objMembers (acc : List (String × Json))

/-- One fuel-indexed step of the recursive-descent JSON reader. All
recursion is structural on the fuel so concrete runs reduce in the
kernel. -/
def parseStep : Nat → PMode → List Char → Option (Json × List Char)
  | 0, _, _ => none
  | Nat.succ fuel, PMode.value, cs =>
    match skipJsonWs cs with
    | '\x7b' :: rest =>
      match skipJsonWs rest with
      | '\x7d' :: r2 => some (Json.obj [], r2)
      | _ => parseStep fuel (PMode.objMembers []) rest
    | '[' :: rest =>
      match skipJsonWs rest with
      | ']' :: r2 => some (Json.arr [], r2)
      | _ => parseStep fuel (PMode.arrElems []) rest
    | '"' :: rest =>
      match parseStringBody rest with
      | some (s, r) => some (Json.str (String.mk s), r)
      | none => none
    | 't' :: 'r' :: 'u' :: 'e' :: rest => some (Json.bool true, rest)
    | 'f' :: 'a' :: 'l' :: 's' :: 'e' :: rest => some (Json.bool false, rest)
    | 'n' :: 'u' :: 'l' :: 'l' :: rest => some (Json.null, rest)
    | 'N' :: 'a' :: 'N' :: rest => some (Json.num "NaN", rest)
    | 'I' :: 'n' :: 'f' :: 'i' :: 'n' :: 'i' :: 't' :: 'y' :: rest =>
      some (Json.num "Infinity", rest)
    | '-' :: 'I' :: 'n' :: 'f' :: 'i' :: 'n' :: 'i' :: 't' :: 'y' :: rest =>
      some (Json.num "-Infinity", rest)
    | c :: rest =>
      if c = '-' || isDigitChar c then
        match parseNumberLex (c :: rest) with
        | some (lex, r) => some (Json.num (String.mk lex), r)
        | none => none
      else none
    | [] => none
  | Nat.succ fuel, PMode.arrElems acc, cs =>
    match parseStep fuel PMode.value cs with
    | some (v, rest) =>
      match skipJsonWs rest with
      | ',' :: r2 => parseStep fuel (PMode.arrElems (acc ++ [v])) r2
      | ']' :: r2 => some (Json.arr (acc ++ [v]), r2)
      | _ => none
    | none => none
  | Nat.succ fuel, PMode.objMembers acc, cs =>
    match skipJsonWs cs with
    | '"' :: r1 =>
      match parseStringBody r1 with
      | some (kcs, r2) =>
        match skipJsonWs r2 with
        | ':' :: r3 =>
          match parseStep fuel PMode.value r3 with
          | some (v, r4) =>
            match skipJsonWs r4 with
            | ',' :: r5 => parseStep fuel (PMode.objMembers (setKey acc (String.mk kcs) v)) r5
            | '\x7d' :: r5 => some (Json.obj (setKey acc (String.mk kcs) v), r5)
            | _ => none
          | none => none
        | _ => none
      | none => none
    | _ => none

/-- Python `json.loads`: parse a complete document, rejecting trailing
garbage. The fuel bound exceeds the reader's worst-case recursion depth
for the input length. -/
def jsonLoads (s : String) : Option Json :=
  match parseStep (4 * s.length + 8) PMode.value s.data with
  | some (v, rest) => if (skipJsonWs rest).isEmpty then some v else none
  | none => none

/-- Substring test on character lists (Python `needle in haystack` for
strings). -/
def subListOf (needle : List Char) : List Char → Bool
  | [] => needle.isEmpty
  | c :: rest => needle.isPrefixOf (c :: rest) || subListOf needle rest

/-- Python `key in data` where `data` came from `json.loads`: key
membership for a dict, element equality against the string for a list,
substring containment for a string, `TypeError` for the non-iterable
values (`int`, `float`, `bool`, `NoneType`). -/
def pyIn (key : String) : Json → Except PyError Bool
  | Json.obj es => Except.ok (es.any (fun kv => kv.1 = key))
  | Json.arr xs =>
    Except.ok (xs.any (fun j => match j with
      | Json.str t => t = key
      | _ => false))
  | Json.str s => Except.ok (subListOf key.data s.data)
  | _ => Except.error PyError.typeError

/-- Python subscription `data[key]` with a string key: dict lookup
(`KeyError` when absent), `TypeError` on every other decoded value. -/
def getItemStr (j : Json) (key : String) : Except PyError Json :=
  match j with
  | Json.obj es =>
    match lookupKey es key with
    | some v => Except.ok v
    | none => Except.error PyError.keyError
  | _ => Except.error PyError.typeError

/-- Python `len(j)` on a decoded value: defined for `str`, `list` and
`dict`, `TypeError` otherwise. -/
def pyLen (j : Json) : Except PyError Nat :=
  match j with
  | Json.str s => Except.ok s.length
  | Json.arr xs => Except.ok xs.length
  | Json.obj es => Except.ok es.length
  | _ => Except.error PyError.typeError

/-- Python subscription `j[0]`: first list element (`IndexError` when
empty), one-character string for a string, `KeyError` for a dict whose
keys are strings, `TypeError` otherwise. -/
def getIndexZero (j : Json) : Except PyError Json :=
  match j with
  | Json.arr (x :: _) => Except.ok x
  | Json.arr [] => Except.error PyError.indexError
  | Json.str s =>
    match s.data with
    | c :: _ => Except.ok (Json.str (String.mk [c]))
    | [] => Except.error PyError.indexError
  | Json.obj _ => Except.error PyError.keyError
  | _ => Except.error PyError.typeError

/-- Python `j.get(key, default)`: only dicts have `.get`
(`AttributeError` otherwise). -/
def dictGet (j : Json) (key : String) (default : Json) : Except PyError Json :=
  match j with
  | Json.obj es => Except.ok ((lookupKey es key).getD default)
  | _ => Except.error PyError.attributeError

/-- Whether a JSON number lexeme denotes zero: its mantissa (the part
before any exponent marker) holds no digit `1`-`9`. -/
def numLexemeIsZero (lexeme : String) : Bool :=
  (lexeme.data.takeWhile (fun c => c ≠ 'e' && c ≠ 'E')).all
    (fun c => !('1' ≤ c && c ≤ '9'))

/-- Python truthiness of a decoded value (`if content:`). -/
def pyTruthy (j : Json) : Bool :=
  match j with
  | Json.null => false
  | Json.bool b => b
  | Json.num lexeme => !numLexemeIsZero lexeme
  | Json.str s => !s.isEmpty
  | Json.arr xs => !xs.isEmpty
  | Json.obj es => !es.isEmpty

/-- Lines 273-281 of `call_ai_stream`, applied to one decoded `data`
payload: `some chunk` when a non-empty `choices[0].delta.content` is to
be accumulated and forwarded to the callback, `none` when the frame is
skipped, and the `PyError` Python would raise on other shapes (the
accumulation `full_content += content` raises `TypeError` before the
callback when the truthy content is not a string). -/
def extractDelta (data : Json) : Except PyError (Option String) := do
  let hasChoices ← pyIn "choices" data
  if hasChoices then
    let choices ← getItemStr data "choices"
    let n ← pyLen choices
    if n > 0 then
      let choicesZero ← getIndexZero choices
      let delta ← dictGet choicesZero "delta" (Json.obj [])
      let content ← dictGet delta "content" (Json.str "")
      if pyTruthy content then
        match content with
        | Json.str s => Except.ok (some s)
        | _ => Except.error PyError.typeError
      else Except.ok none
    else Except.ok none
  else Except.ok none

/-- The line loop of `call_ai_stream` (lines 251-287) over the decoded
lines of the response body. `acc` is `full_content`; `chunks` records the
callback invocations in order. A `[DONE]` payload stops with the current
state; a JSON decode failure is skipped (the warning has no effect on the
result); any other Python error aborts the loop. -/
def processLines : List String → String → List String → Except PyError (String × List String)
  | [], acc, chunks => Except.ok (acc, chunks)
  | line :: rest, acc, chunks =>
    if line = "" then processLines rest acc chunks
    else if "event:".data.isPrefixOf line.data then processLines rest acc chunks
    else if "data:".data.isPrefixOf line.data then
      let dataStr := pyStrip (String.mk (line.data.drop 5))
      if dataStr = "[DONE]" then Except.ok (acc, chunks)
      else
        match jsonLoads dataStr with
        | none => processLines rest acc chunks
        | some data =>
          match extractDelta data with
          | Except.error e => Except.error e
          | Except.ok none => processLines rest acc chunks
          | Except.ok (some s) => processLines rest (acc ++ s) (chunks ++ [s])
    else processLines rest acc chunks

/-- `call_ai_stream`'s processing of a streamed body given as its decoded
lines: the returned `full_content` paired with the chunk sequence passed
to the callback, or the Python error raised. -/
def call_ai_stream_lines (lines : List String) : Except PyError (String × List String) :=
  processLines lines "" []

/-- Splits a raw body into lines the way `response.iter_lines()` delivers
them: terminators `\r\n`, `\r` and `\n` are removed, and a trailing
terminator yields no final empty line. -/
def splitLinesAux : List Char → Bool → List Char → List String
  | [], _, [] => []
  | [], _, cur => [String.mk cur.reverse]
  | c :: rest, skipLF, cur =>
    if skipLF = true ∧ c = '\n' then splitLinesAux rest false cur
    else if c = '\r' then String.mk cur.reverse :: splitLinesAux rest true []
    else if c = '\n' then String.mk cur.reverse :: splitLinesAux rest false []
    else splitLinesAux rest false (c :: cur)

/-- Line decomposition of a raw streamed body. -/
def splitLines (s : String) : List String :=
  splitLinesAux s.data false []

/-- `call_ai_stream`'s processing of a raw streamed response body. -/
def call_ai_stream_body (body : String) : Except PyError (String × List String) :=
  call_ai_stream_lines (splitLines body)

/-- `LlmMessageRole` (lines 83-86). -/
inductive LlmMessageRole where
  | USER
  | ASSISTANT
  | SYSTEM
deriving Repr, DecidableEq

/-- The enum's string value, serialised by the pydantic json encoder. -/
def LlmMessageRole.value : LlmMessageRole → String
  | LlmMessageRole.USER => "user"
  | LlmMessageRole.ASSISTANT => "assistant"
  | LlmMessageRole.SYSTEM => "system"

/-- The `content` field of `LlmMessage`: `str | list[dict]` (line 91). -/
inductive LlmContent where
  | text (s : String)
  | parts (ps : List Json)
deriving Repr

/-- `LlmMessage` (lines 89-97). -/
structure LlmMessage where
  role : LlmMessageRole
  content : LlmContent
deriving Repr

/-- JSON image of a message content. -/
def LlmContent.dump : LlmContent → Json
  | LlmContent.text s => Json.str s
  | LlmContent.parts ps => Json.arr ps

/-- `m.model_dump(mode='json')` (line 175/222): a dict with the fields in
declaration order, the role rendered through its enum value. -/
def LlmMessage.dump (m : LlmMessage) : Json :=
  Json.obj [("role", Json.str m.role.value), ("content", m.content.dump)]

/-- The `_Model` pydantic record (lines 100-102). -/
structure ModelData where
  model : String
  provider : String
deriving Repr, DecidableEq

/-- `LlmModel` (lines 105-113). -/
inductive LlmModel where
  | DEEPSEEK_V3
  | DEEPSEEK_R1
  | QWEN_PLUS
  | QWEN_235B
  | DOUBAO_1_6
  | DOUBAO_1_5
  | DOUBAO_IMAGE_1_6
  | DOUBAO_1_6_FLASH
deriving Repr, DecidableEq

/-- Each enum member's `_Model` value. -/
def LlmModel.value : LlmModel → ModelData
  | LlmModel.DEEPSEEK_V3 => ⟨"deepseek-chat", "deepseek"⟩
  | LlmModel.DEEPSEEK_R1 => ⟨"DeepSeek-R1", "deepseek"⟩
  | LlmModel.QWEN_PLUS => ⟨"qwen-plus", "qwen"⟩
  | LlmModel.QWEN_235B => ⟨"qwen3-235b-a22b-instruct-2507", "qwen"⟩
  | LlmModel.DOUBAO_1_6 => ⟨"doubao-seed-1-6-250615", "doubao"⟩
  | LlmModel.DOUBAO_1_5 => ⟨"doubao-1-5-pro-32k-250115", "doubao"⟩
  | LlmModel.DOUBAO_IMAGE_1_6 => ⟨"doubao-seed-1-6-251015", "doubao"⟩
  | LlmModel.DOUBAO_1_6_FLASH => ⟨"doubao-seed-1-6-flash-250828", "doubao"⟩

/-- Python dict-literal extension `\x7b...base..., **kwargs\x7d`: each
keyword entry is assigned in order, overwriting an existing key in
place. -/
def extendEntries (base : List (String × Json)) (kwargs : List (String × Json)) :
    List (String × Json) :=
  kwargs.foldl (fun es kv => setKey es kv.1 kv.2) base

/-- The `requests_data` dict of `call_ai` (lines 174-178). -/
def call_ai_requests_data (messages : List LlmMessage) (model : LlmModel)
    (kwargs : List (String × Json)) : Json :=
  Json.obj (extendEntries
    [("messages", Json.arr (messages.map LlmMessage.dump)),
     ("model", Json.str model.value.model)] kwargs)

/-- The request payload of `call_ai` (lines 179-183). -/
def call_ai_payload (application : String) (messages : List LlmMessage)
    (model : LlmModel) (kwargs : List (String × Json)) : Json :=
  Json.obj
    [("application", Json.str application),
     ("provider", Json.str model.value.provider),
     ("requests_data", call_ai_requests_data messages model kwargs)]

/-- The `requests_data` dict of `call_ai_stream` (lines 221-226): the
non-streaming fields plus `"stream": True` before the extra options. -/
def call_ai_stream_requests_data (messages : List LlmMessage) (model : LlmModel)
    (kwargs : List (String × Json)) : Json :=
  Json.obj (extendEntries
    [("messages", Json.arr (messages.map LlmMessage.dump)),
     ("model", Json.str model.value.model),
     ("stream", Json.bool true)] kwargs)

/-- The request payload of `call_ai_stream` (lines 227-231). -/
def call_ai_stream_payload (application : String) (messages : List LlmMessage)
    (model : LlmModel) (kwargs : List (String × Json)) : Json :=
  Json.obj
    [("application", Json.str application),
     ("provider", Json.str model.value.provider),
     ("requests_data", call_ai_stream_requests_data messages model kwargs)]

/-- Field access on a decoded object by key (for stating envelope
properties). -/
def getKey (j : Json) (k : String) : Option Json :=
  match j with
  | Json.obj es => lookupKey es k
  | _ => none

/-- Line 202 of `call_ai`: `response.json()['choices'][0]['message']['content']`
on a success response body, with the Python errors its shape mismatches
raise. -/
def call_ai_extract (body : Json) : Except PyError Json := do
  let choices ← getItemStr body "choices"
  let choicesZero ← getIndexZero choices
  let message ← getItemStr choicesZero "message"
  getItemStr message "content"

/-- Python float values relevant to `float(...)` results: finite values
as exact rationals, plus the non-finite values `float` can produce. -/
inductive PyFloat where
  | finite (q : ℚ)
  | nan
  | inf
  | negInf
deriving DecidableEq

/-- Python `x <= y` on floats; every comparison with `nan` is false. -/
def pyFloatLe : PyFloat → PyFloat → Bool
  | PyFloat.nan, _ => false
  | _, PyFloat.nan => false
  | PyFloat.negInf, _ => true
  | _, PyFloat.negInf => false
  | _, PyFloat.inf => true
  | PyFloat.inf, _ => false
  | PyFloat.finite a, PyFloat.finite b => a ≤ b

/-- JSON image of the float placed in the request options. -/
def pyFloatToJson : PyFloat → Json
  | PyFloat.finite q => Json.num (toString q)
  | PyFloat.nan => Json.num "NaN"
  | PyFloat.inf => Json.num "Infinity"
  | PyFloat.negInf => Json.num "-Infinity"

/-- Lines 745-753 of `AIDebugTool._send_request_thread`: the result of
`float(text)` — `none` when it raised `ValueError`, `some t` otherwise
(`float` is an external builtin, so its parse is a parameter) — is range
checked with the chained comparison `0 <= temperature <= 2`; a value in
range is stored under `"temperature"` in `extra_kwargs`, anything else
only logs a warning. Returns the updated options and whether the warning
path ran. -/
def add_temperature (parsed : Option PyFloat) (extra_kwargs : List (String × Json)) :
    List (String × Json) × Bool :=
  match parsed with
  | none => (extra_kwargs, true)
  | some temperature =>
    if pyFloatLe (PyFloat.finite 0) temperature && pyFloatLe temperature (PyFloat.finite 2) then
      (setKey extra_kwargs "temperature" (pyFloatToJson temperature), false)
    else (extra_kwargs, true)

/-- The page loop of `pdf_to_images` (lines 49-70): `base64_images`
starts empty and each page appends one string. The whole per-page
pipeline (rasterise with PyMuPDF, resize, JPEG-encode with Pillow,
base64-encode) is the external collaborators' work and is abstracted as
the parameter `perPage`. -/
def pdf_to_images_loop {α : Type} (perPage : α → String) :
    List α → List String → List String
  | [], base64_images => base64_images
  | page :: rest, base64_images =>
    pdf_to_images_loop perPage rest (base64_images ++ [perPage page])

/-- `pdf_to_images` on an opened document, given as its pages in document
order (lines 45-74). -/
def pdf_to_images {α : Type} (perPage : α → String) (pages : List α) : List String :=
  pdf_to_images_loop perPage pages []

/-- Ordered concatenation of the chunks handed to the callback. -/
def concatChunks : List String → String
  | [] => ""
  | s :: rest => s ++ concatChunks rest

/-- The streamed body of the spec's worked example. -/
def helloStreamBody : String :=
  "data: \x7b\"choices\":[\x7b\"delta\":\x7b\"content\":\"He\"\x7d\x7d]\x7d\n\ndata: \x7b\"choices\":[\x7b\"delta\":\x7b\"content\":\"llo\"\x7d\x7d]\x7d\n\ndata: [DONE]\n\n"

/-- Errors of the `configparser` fragment used by `Config`
(lines 118-155): interpolation syntax/depth/missing-option errors,
parse errors, duplicate options and option lines before any section. -/
inductive ConfigError where
  | interpolationSyntax
  | interpolationDepth
  | interpolationMissingOption
  | parseError
  | duplicateOption
  | missingSectionHeader
deriving Repr, DecidableEq

/-- Python `str.lower()` (ASCII suffices for the embedded keys);
`ConfigParser.optionxform`. -/
def lowerStr (s : String) : String := String.mk (s.data.map Char.toLower)

/-- Lookup in an ordered string-valued mapping. -/
def lookupStr : List (String × String) → String → Option String
  | [], _ => none
  | (k0, v) :: rest, k => if k0 = k then some v else lookupStr rest k

/-- Assignment into an ordered string-valued mapping (in-place
overwrite). -/
def setStrKey : List (String × String) → String → String → List (String × String)
  | [], k, v => [(k, v)]
  | (k0, v0) :: rest, k, v =>
    if k0 = k then (k, v) :: rest else (k0, v0) :: setStrKey rest k v

/-- Scanner state for `BasicInterpolation.before_set`'s syntax check:
outside a reference, at the first character of a `%(name)s` reference, or
inside the reference name. -/
inductive InterpMode where
  | top
  | refFirst
  | refTail

/-- `BasicInterpolation.before_set`'s validity check on a value being
assigned: every `%` must begin `%%` or a complete `%(name)s` reference
(the stdlib checks this with `replace`/regex passes; the scans agree on
every value whose reference names contain no `%`). -/
def interpScan : InterpMode → List Char → Bool
  | InterpMode.top, [] => true
  | InterpMode.refFirst, [] => false
  | InterpMode.refTail, [] => false
  | InterpMode.top, c :: rest =>
    if c = '%' then
      match rest with
      | '%' :: r2 => interpScan InterpMode.top r2
      | '(' :: r2 => interpScan InterpMode.refFirst r2
      | _ => false
    else interpScan InterpMode.top rest
  | InterpMode.refFirst, c :: rest =>
    if c = ')' then false else interpScan InterpMode.refTail rest
  | InterpMode.refTail, c :: rest =>
    if c = ')' then
      match rest with
      | 's' :: r2 => interpScan InterpMode.top r2
      | _ => false
    else interpScan InterpMode.refTail rest

/-- `Config.set`'s store step
(`self.config['DEFAULT'][key] = str(value)`, line 154): the value passes
`before_set` or the assignment raises `ValueError`. -/
def config_set_value (v : String) : Except ConfigError String :=
  if interpScan InterpMode.top v.data then Except.ok v
  else Except.error ConfigError.interpolationSyntax

/-- Assigning every key/value pair in order into the `DEFAULT` section
(keys pass through `optionxform`, i.e. lowercasing). -/
def config_set_all (vals : List (String × String)) : Except ConfigError (List (String × String)) :=
  vals.foldlM
    (fun es kv =>
      match config_set_value kv.2 with
      | Except.ok v => Except.ok (setStrKey es (lowerStr kv.1) v)
      | Except.error e => Except.error e)
    []

/-- `ConfigParser.write`'s newline escape: values written as
`value.replace('\n', '\n\t')` so continuation lines re-parse. -/
def replaceNLTab : List Char → List Char
  | [] => []
  | c :: rest =>
    if c = '\n' then '\n' :: '\t' :: replaceNLTab rest
    else c :: replaceNLTab rest

/-- The file lines `ConfigParser.write` produces for one option
(`key = escaped-value`, split at the newlines the escape kept). -/
def entryLines (kv : String × String) : List String :=
  splitLines (String.mk (kv.1.data ++ (' ' :: '=' :: ' ' :: replaceNLTab kv.2.data)))

/-- The file lines `Config.save_config` writes: the `[DEFAULT]` header,
one (or, for multi-line values, several) lines per option, and the blank
line ending the section. -/
def saveLines (entries : List (String × String)) : List String :=
  "[DEFAULT]" :: ((entries.map entryLines).foldr (fun a b => a ++ b) [] ++ [""])

/-- Which section the reader is in: before any header, the `DEFAULT`
section, or some other section. -/
inductive IniSection where
  | start
  | defaultSection
  | otherSection
deriving Repr, DecidableEq

/-- Reader state: current section, the option awaiting continuation
lines, and the accumulated `DEFAULT` options as raw line parts. -/
structure IniState where
  sect : IniSection
  curKey : Option String
  acc : List (String × List String)
deriving Repr

/-- Appends one more raw part to an option's value. -/
def addPart : List (String × List String) → String → String → List (String × List String)
  | [], k, p => [(k, [p])]
  | (k0, ps) :: rest, k, p =>
    if k0 = k then (k0, ps ++ [p]) :: rest else (k0, ps) :: addPart rest k p

/-- Whether the accumulated options already hold a key. -/
def hasPartsKey (acc : List (String × List String)) (k : String) : Bool :=
  acc.any (fun kp => kp.1 = k)

/-- First character test. -/
def headIs (cs : List Char) (p : Char → Bool) : Bool :=
  match cs with
  | c :: _ => p c
  | [] => false

/-- `ConfigParser.SECTCRE` on a stripped line: `[name]` with a non-empty
name not containing `]`; trailing text after the bracket is ignored. -/
def sectionName (cs : List Char) : Option String :=
  match cs with
  | c :: rest =>
    if c = '[' then
      let name := rest.takeWhile (fun x => x ≠ ']')
      match rest.dropWhile (fun x => x ≠ ']') with
      | ']' :: _ => if name.isEmpty then none else some (String.mk name)
      | _ => none
    else none
  | [] => none

/-- Splits a line at its first `=` or `:` delimiter. -/
def splitAtDelim : List Char → Option (List Char × List Char)
  | [] => none
  | c :: rest =>
    if c = '=' || c = ':' then some ([], rest)
    else
      match splitAtDelim rest with
      | some (pre, post) => some (c :: pre, post)
      | none => none

/-- `ConfigParser.OPTCRE` on a stripped option line: key before the first
delimiter (stripped, lowercased through `optionxform`), value after it
(stripped). -/
def splitOpt (stripped : String) : Option (String × String) :=
  match splitAtDelim stripped.data with
  | some (kcs, vcs) => some (lowerStr (pyStrip (String.mk kcs)), pyStrip (String.mk vcs))
  | none => none

/-- One line of `ConfigParser._read`: blank lines extend the pending
multi-line value with an empty part, comment lines are dropped, indented
lines continue the pending option, bracketed lines switch section, and
the rest are `key = value` option lines (duplicates are rejected,
options before any section header are an error). -/
def iniStep (st : IniState) (line : String) : Except ConfigError IniState :=
  let stripped := pyStrip line
  if stripped = "" then
    match st.sect, st.curKey with
    | IniSection.defaultSection, some k =>
      Except.ok ⟨st.sect, st.curKey, addPart st.acc k ""⟩
    | _, _ => Except.ok st
  else if headIs stripped.data (fun c => c = '#' || c = ';') then Except.ok st
  else if headIs line.data isPySpace then
    match st.sect, st.curKey with
    | IniSection.defaultSection, some k =>
      Except.ok ⟨st.sect, st.curKey, addPart st.acc k stripped⟩
    | IniSection.otherSection, some _ => Except.ok st
    | _, _ => Except.error ConfigError.parseError
  else
    match sectionName stripped.data with
    | some name =>
      if name = "DEFAULT" then Except.ok ⟨IniSection.defaultSection, none, st.acc⟩
      else Except.ok ⟨IniSection.otherSection, none, st.acc⟩
    | none =>
      match splitOpt stripped with
      | some (k, v) =>
        match st.sect with
        | IniSection.start => Except.error ConfigError.missingSectionHeader
        | IniSection.otherSection => Except.ok ⟨st.sect, none, st.acc⟩
        | IniSection.defaultSection =>
          if hasPartsKey st.acc k then Except.error ConfigError.duplicateOption
          else Except.ok ⟨IniSection.defaultSection, some k, st.acc ++ [(k, [v])]⟩
      | none => Except.error ConfigError.parseError

/-- `_join_multiline_values`' join of the raw parts with newlines. -/
def joinParts : List String → String
  | [] => ""
  | p :: rest => rest.foldl (fun a b => a ++ "\n" ++ b) p

/-- `ConfigParser.read` over the file's lines: fold the per-line step,
then join each option's parts and right-strip the result. -/
def readIniLines (lines : List String) : Except ConfigError (List (String × String)) :=
  match lines.foldlM iniStep ⟨IniSection.start, none, []⟩ with
  | Except.ok st => Except.ok (st.acc.map (fun kp => (kp.1, pyRstrip (joinParts kp.2))))
  | Except.error e => Except.error e

/-- A `%(name)s` reference tail: the name up to `)`, requiring the `s`
conversion. -/
def splitRef (cs : List Char) : Option (List Char × List Char) :=
  let name := cs.takeWhile (fun c => c ≠ ')')
  match cs.dropWhile (fun c => c ≠ ')') with
  | ')' :: 's' :: rest => if name.isEmpty then none else some (name, rest)
  | _ => none

/-- `BasicInterpolation.before_get`: `%%` unescapes to `%`, `%(name)s`
expands to the referenced option's value (interpolated in turn), a bare
`%` is a syntax error. The fuel bound stands in for
`MAX_INTERPOLATION_DEPTH`; it is generous enough that interpolation-free
values (the ones the round-trip theorem quantifies over) never hit it. -/
def interpGet (entries : List (String × String)) : Nat → List Char → Except ConfigError (List Char)
  | 0, _ => Except.error ConfigError.interpolationDepth
  | Nat.succ _, [] => Except.ok []
  | Nat.succ fuel, c :: rest =>
    if c = '%' then
      match rest with
      | '%' :: r2 =>
        match interpGet entries fuel r2 with
        | Except.ok cs => Except.ok ('%' :: cs)
        | Except.error e => Except.error e
      | '(' :: r2 =>
        match splitRef r2 with
        | none => Except.error ConfigError.interpolationSyntax
        | some (name, after) =>
          match lookupStr entries (lowerStr (String.mk name)) with
          | none => Except.error ConfigError.interpolationMissingOption
          | some v =>
            match interpGet entries fuel v.data, interpGet entries fuel after with
            | Except.ok inner, Except.ok tailcs => Except.ok (inner ++ tailcs)
            | Except.error e, _ => Except.error e
            | _, Except.error e => Except.error e
      | _ => Except.error ConfigError.interpolationSyntax
    else
      match interpGet entries fuel rest with
      | Except.ok cs => Except.ok (c :: cs)
      | Except.error e => Except.error e

/-- Total size of the stored values, for the interpolation fuel. -/
def sumValLen (entries : List (String × String)) : Nat :=
  entries.foldl (fun n kv => n + kv.2.length) 0

/-- Interpolation fuel for one `get`. -/
def interpFuel (entries : List (String × String)) (v : String) : Nat :=
  10 * (v.length + sumValLen entries + 1)

/-- `Config.get` (line 150): `self.config['DEFAULT'].get(key)` — `none`
for a missing key, otherwise the stored value through
`before_get` interpolation. -/
def config_get (entries : List (String × String)) (key : String) :
    Except ConfigError (Option String) :=
  match lookupStr entries key with
  | none => Except.ok none
  | some v =>
    match interpGet entries (interpFuel entries v) v.data with
    | Except.ok cs => Except.ok (some (String.mk cs))
    | Except.error e => Except.error e

/-- The round trip of the claim: assign every pair, write the file, read
it back, and `get` one key. -/
def config_save_load_get (vals : List (String × String)) (key : String) :
    Except ConfigError (Option String) :=
  match config_set_all vals with
  | Except.error e => Except.error e
  | Except.ok entries =>
    match readIniLines (saveLines entries) with
    | Except.error e => Except.error e
    | Except.ok loaded => config_get loaded key

/-- The recognised configuration keys (lines 131-140, 542-549). -/
def recognizedKeys : List String :=
  ["api_url", "application", "api_key", "timeout", "response_format",
   "model", "temperature", "use_stream"]

/-- The single file line a clean (percent-free, single-line, stripped)
option writes: `key = value`. -/
def optLine (kv : String × String) : String :=
  String.mk (kv.1.data ++ (' ' :: '=' :: ' ' :: kv.2.data))

/-- An option freshly parsed from one line: a single raw part. -/
def mkSingle (kv : String × String) : String × List String := (kv.1, [kv.2])

/-- Lookup among the reader's raw option parts. -/
def lookupParts : List (String × List String) → String → Option (List String)
  | [], _ => none
  | (k0, ps) :: rest, k => if k0 = k then some ps else lookupParts rest k

/-- The key of the last pair, or the default when there is none. -/
def lastKeyOf : List (String × String) → Option String → Option String
  | [], dflt => dflt
  | kv :: rest, _ => lastKeyOf rest (some kv.1)

/-- Effect of the final blank line on the accumulated options. -/
def blankAcc (acc : List (String × List String)) : Option String → List (String × List String)
  | some k => addPart acc k ""
  | none => acc

/-- A value that survives the INI round trip unchanged: stripped on both
sides (values are stripped when read back), and free of `%` (interpolation
syntax), newlines and carriage returns (line structure). -/
def CleanValue (v : String) : Prop :=
  pyStripLeftChars v.data = v.data ∧ pyStripRightChars v.data = v.data ∧
    ∀ c ∈ v.data, c ≠ '%' ∧ c ≠ '\n' ∧ c ≠ '\r'

/-- A well-behaved option key: non-empty, already lowercase, and free of
whitespace, delimiters, section brackets, comment markers and `%`. Every
recognised configuration key satisfies this. -/
def CleanKey (k : String) : Prop :=
  k.data ≠ [] ∧ lowerStr k = k ∧
    ∀ c ∈ k.data, isPySpace c = false ∧ c ≠ '=' ∧ c ≠ ':' ∧ c ≠ '[' ∧ c ≠ '#' ∧ c ≠ ';' ∧ c ≠ '%'

instance (v : String) : Decidable (CleanValue v) := by
  unfold CleanValue
  infer_instance

instance (k : String) : Decidable (CleanKey k) := by
  unfold CleanKey
  infer_instance

example : jsonLoads "\x7b\"a\": [1, true, null]\x7d"
    = some (Json.obj [("a", Json.arr [Json.num "1", Json.bool true, Json.null])]) := rfl

example : jsonLoads "\x7bbad" = none := rfl

example : jsonLoads "42" = some (Json.num "42") := rfl

example : jsonLoads " \x7b\"choices\":[\x7b\"delta\":\x7b\"content\":\"He\"\x7d\x7d]\x7d"
    = some (Json.obj [("choices",
        Json.arr [Json.obj [("delta", Json.obj [("content", Json.str "He")])]])]) := rfl

example :
    call_ai_stream_body
      ("data: \x7b\"choices\":[\x7b\"delta\":\x7b\"content\":\"He\"\x7d\x7d]\x7d\n\ndata: \x7b\"choices\":[\x7b\"delta\":\x7b\"content\":\"llo\"\x7d\x7d]\x7d\n\ndata: [DONE]\n\n")
      = Except.ok ("Hello", ["He", "llo"]) := rfl

example : call_ai_stream_lines ["data: 42"] = Except.error PyError.typeError := rfl

example : call_ai_stream_lines ["data: \x7bbad", "data: \x7b\"choices\":[\x7b\"delta\":\x7b\"content\":\"He\"\x7d\x7d]\x7d", "data: [DONE]"]
    = Except.ok ("He", ["He"]) := rfl

example : call_ai_stream_lines ["data: [DONE]", "data: \x7b\"choices\":[\x7b\"delta\":\x7b\"content\":\"He\"\x7d\x7d]\x7d"]
    = Except.ok ("", []) := rfl

example : call_ai_stream_lines ["data: \x7b\"choices\":[\x7b\"delta\":\x7b\"role\":\"assistant\"\x7d\x7d]\x7d", "data: [DONE]"]
    = Except.ok ("", []) := rfl

example :
    call_ai_extract (Json.obj [("choices",
      Json.arr [Json.obj [("message", Json.obj [("content", Json.str "hi")])]])])
      = Except.ok (Json.str "hi") := rfl

example : call_ai_extract (Json.obj [("id", Json.str "x")])
    = Except.error PyError.keyError := rfl

theorem str_append_data (a b : String) : (a ++ b).data = a.data ++ b.data := rfl

theorem str_mk_data (s : String) : String.mk s.data = s := rfl

theorem str_append_empty (s : String) : s ++ "" = s := by
  cases s with
  | mk data => show String.mk (data ++ []) = String.mk data; rw [List.append_nil]

theorem str_empty_append (s : String) : "" ++ s = s := by
  cases s with
  | mk data => rfl

theorem str_append_assoc (a b c : String) : a ++ b ++ c = a ++ (b ++ c) := by
  cases a; cases b; cases c
  show String.mk _ = String.mk _
  rw [List.append_assoc]

/-- Invariant of the stream loop: a normal return extends the incoming
callback record, and the returned text is the incoming accumulator
followed by the concatenation of the new chunks. -/
theorem processLines_ok_concat (lines : List String) :
    ∀ acc chunks total out,
      processLines lines acc chunks = Except.ok (total, out) →
      ∃ tail, out = chunks ++ tail ∧ total = acc ++ concatChunks tail := by
  induction lines with
  | nil =>
    intro acc chunks total out h
    simp only [processLines, Except.ok.injEq, Prod.mk.injEq] at h
    exact ⟨[], by simp [← h.1, ← h.2, concatChunks, str_append_empty]⟩
  | cons line rest ih =>
    intro acc chunks total out h
    simp only [processLines] at h
    split at h
    · exact ih acc chunks total out h
    · split at h
      · exact ih acc chunks total out h
      · split at h
        · split at h
          · simp only [Except.ok.injEq, Prod.mk.injEq] at h
            exact ⟨[], by simp [← h.1, ← h.2, concatChunks, str_append_empty]⟩
          · split at h
            · exact ih acc chunks total out h
            · split at h
              · exact absurd h (by simp)
              · exact ih acc chunks total out h
              · rename_i s hs
                obtain ⟨tail, htail, htot⟩ := ih _ _ total out h
                refine ⟨s :: tail, ?_, ?_⟩
                · rw [htail, List.append_assoc]; rfl
                · rw [htot, concatChunks, ← str_append_assoc]
        · exact ih acc chunks total out h

theorem lookupKey_none_any (entries : List (String × Json)) (k : String)
    (h : lookupKey entries k = none) :
    entries.any (fun kv => kv.1 = k) = false := by
  induction entries with
  | nil => rfl
  | cons kv rest ih =>
    rw [lookupKey] at h
    by_cases hk : kv.1 = k
    · rw [if_pos hk] at h; exact absurd h (by simp)
    · rw [if_neg hk] at h
      simp [List.any_cons, hk, ih h]

theorem lookupKey_some_any (entries : List (String × Json)) (k : String) (v : Json)
    (h : lookupKey entries k = some v) :
    entries.any (fun kv => kv.1 = k) = true := by
  induction entries with
  | nil => exact absurd h (by simp [lookupKey])
  | cons kv rest ih =>
    rw [lookupKey] at h
    by_cases hk : kv.1 = k
    · simp [List.any_cons, hk]
    · rw [if_neg hk] at h
      simp [List.any_cons, ih h]

/-- A decoded object payload whose `choices` key is absent, or maps to an
empty list, makes lines 273-281 skip the frame: no chunk, no error. -/
theorem extractDelta_skips_no_choices (entries : List (String × Json))
    (h : lookupKey entries "choices" = none ∨ lookupKey entries "choices" = some (Json.arr [])) :
    extractDelta (Json.obj entries) = Except.ok none := by
  cases h with
  | inl h =>
    have hany := lookupKey_none_any entries "choices" h
    simp [extractDelta, pyIn, hany, bind, Except.bind]
  | inr h =>
    have hany := lookupKey_some_any entries "choices" (Json.arr []) h
    simp [extractDelta, pyIn, hany, getItemStr, h, pyLen, bind, Except.bind]

theorem dataline_ne_empty (tail : List Char) :
    String.mk ('d' :: 'a' :: 't' :: 'a' :: ':' :: tail) ≠ "" := by
  intro hc
  have : ('d' :: 'a' :: 't' :: 'a' :: ':' :: tail) = "".data := congrArg String.data hc
  simp at this

theorem dataline_not_event (tail : List Char) :
    ¬"event:".data.isPrefixOf (String.mk ('d' :: 'a' :: 't' :: 'a' :: ':' :: tail)).data = true := by
  intro hc
  simp [List.isPrefixOf, Bool.and_eq_true] at hc

theorem dataline_is_data (tail : List Char) :
    "data:".data.isPrefixOf (String.mk ('d' :: 'a' :: 't' :: 'a' :: ':' :: tail)).data = true := by
  simp [List.isPrefixOf]

/-- A `data:` line whose stripped payload is neither `[DONE]` nor decodes
to JSON is skipped and the loop proceeds with the remaining lines. -/
theorem processLines_malformed_skip (tail : List Char) (rest : List String)
    (acc : String) (chunks : List String)
    (hdone : pyStrip (String.mk tail) ≠ "[DONE]")
    (hparse : jsonLoads (pyStrip (String.mk tail)) = none) :
    processLines (String.mk ('d' :: 'a' :: 't' :: 'a' :: ':' :: tail) :: rest) acc chunks
      = processLines rest acc chunks := by
  rw [processLines]
  rw [if_neg (dataline_ne_empty tail),
      if_neg (fun hc => dataline_not_event tail hc),
      if_pos (dataline_is_data tail)]
  have hdrop : (String.mk ('d' :: 'a' :: 't' :: 'a' :: ':' :: tail)).data.drop 5 = tail := rfl
  rw [hdrop, if_neg hdone, hparse]

/-- C1: whenever `call_ai_stream` returns, the returned text is the
ordered concatenation of exactly the chunks delivered to the callback;
on the spec's example body the callback receives `"He"` then `"llo"` and
the total is `"Hello"`; a role-only (empty-content) frame produces no
callback invocation and no accumulation. -/
theorem call_ai_stream_concatenates_delivered_chunks :
    (∀ (lines : List String) (total : String) (chunks : List String),
        call_ai_stream_lines lines = Except.ok (total, chunks) →
        total = concatChunks chunks)
    ∧ call_ai_stream_body helloStreamBody = Except.ok ("Hello", ["He", "llo"])
    ∧ call_ai_stream_lines
        ["data: \x7b\"choices\":[\x7b\"delta\":\x7b\"role\":\"assistant\"\x7d\x7d]\x7d",
         "data: \x7b\"choices\":[\x7b\"delta\":\x7b\"content\":\"He\"\x7d\x7d]\x7d",
         "data: [DONE]"] = Except.ok ("He", ["He"]) := by
  refine ⟨?_, rfl, rfl⟩
  intro lines total chunks h
  obtain ⟨tail, htail, htot⟩ := processLines_ok_concat lines "" [] total chunks h
  rw [List.nil_append] at htail
  rw [htot, htail, str_empty_append]

theorem call_ai_stream_concatenates_delivered_chunks_witness :
    call_ai_stream_body helloStreamBody = Except.ok ("Hello", ["He", "llo"])
    ∧ "Hello" = concatChunks ["He", "llo"] :=
  ⟨rfl, call_ai_stream_concatenates_delivered_chunks.1 (splitLines helloStreamBody)
    "Hello" ["He", "llo"] rfl⟩

/-- C2: a `data:` line whose payload fails JSON decoding is skipped (the
warning aside) and the loop continues with the following lines; a stream
with one malformed data line followed by a valid one still yields the
valid chunk, and the malformed line triggers no callback and raises
nothing. -/
theorem malformed_json_data_line_skipped :
    (∀ (tail : List Char) (rest : List String) (acc : String) (chunks : List String),
        pyStrip (String.mk tail) ≠ "[DONE]" →
        jsonLoads (pyStrip (String.mk tail)) = none →
        processLines (String.mk ('d' :: 'a' :: 't' :: 'a' :: ':' :: tail) :: rest) acc chunks
          = processLines rest acc chunks)
    ∧ call_ai_stream_lines
        ["data: \x7bbad",
         "data: \x7b\"choices\":[\x7b\"delta\":\x7b\"content\":\"He\"\x7d\x7d]\x7d",
         "data: [DONE]"] = Except.ok ("He", ["He"]) :=
  ⟨processLines_malformed_skip, rfl⟩

theorem malformed_json_data_line_skipped_witness :
    processLines ["data: \x7bbad"] "" [] = processLines [] "" []
    ∧ call_ai_stream_lines ["data: \x7bbad"] = Except.ok ("", []) := by
  constructor
  · exact malformed_json_data_line_skipped.1
      (' ' :: '\x7b' :: 'b' :: 'a' :: 'd' :: []) [] "" [] (by decide) rfl
  · rfl

/-- C4: a `data:` line whose stripped payload is literally `[DONE]`
terminates the loop at once with the state accumulated so far — lines
after it are never examined — and a body whose first data line is
`[DONE]` returns the empty text with no callback invocations. -/
theorem done_sentinel_terminates_stream :
    (∀ (tail : List Char) (rest : List String) (acc : String) (chunks : List String),
        pyStrip (String.mk tail) = "[DONE]" →
        processLines (String.mk ('d' :: 'a' :: 't' :: 'a' :: ':' :: tail) :: rest) acc chunks
          = Except.ok (acc, chunks))
    ∧ call_ai_stream_body "data: [DONE]\n\ndata: \x7b\"choices\":[\x7b\"delta\":\x7b\"content\":\"He\"\x7d\x7d]\x7d\n\n"
        = Except.ok ("", []) := by
  refine ⟨?_, rfl⟩
  intro tail rest acc chunks hdone
  rw [processLines]
  rw [if_neg (dataline_ne_empty tail),
      if_neg (fun hc => dataline_not_event tail hc),
      if_pos (dataline_is_data tail)]
  have hdrop : (String.mk ('d' :: 'a' :: 't' :: 'a' :: ':' :: tail)).data.drop 5 = tail := rfl
  rw [hdrop, if_pos hdone]

theorem done_sentinel_terminates_stream_witness :
    processLines ["data: [DONE]", "data: anything"] "He" ["He"] = Except.ok ("He", ["He"]) :=
  done_sentinel_terminates_stream.1 (' ' :: '[' :: 'D' :: 'O' :: 'N' :: 'E' :: ']' :: [])
    ["data: anything"] "He" ["He"] (by decide)

/-- C10 (amended): a data line decoding to a JSON object that lacks the
`choices` key, or whose `choices` value is the empty list, is skipped
silently — no callback, no accumulation, no error — and the loop
continues with the remaining lines. -/
theorem stream_object_without_choices_skipped :
    ∀ (tail : List Char) (rest : List String) (acc : String) (chunks : List String)
      (entries : List (String × Json)),
      pyStrip (String.mk tail) ≠ "[DONE]" →
      jsonLoads (pyStrip (String.mk tail)) = some (Json.obj entries) →
      (lookupKey entries "choices" = none ∨ lookupKey entries "choices" = some (Json.arr [])) →
      processLines (String.mk ('d' :: 'a' :: 't' :: 'a' :: ':' :: tail) :: rest) acc chunks
        = processLines rest acc chunks := by
  intro tail rest acc chunks entries hdone hparse hch
  rw [processLines]
  rw [if_neg (dataline_ne_empty tail),
      if_neg (fun hc => dataline_not_event tail hc),
      if_pos (dataline_is_data tail)]
  have hdrop : (String.mk ('d' :: 'a' :: 't' :: 'a' :: ':' :: tail)).data.drop 5 = tail := rfl
  rw [hdrop, if_neg hdone, hparse]
  show (match extractDelta (Json.obj entries) with
    | Except.error e => Except.error e
    | Except.ok none => processLines rest acc chunks
    | Except.ok (some s) => processLines rest (acc ++ s) (chunks ++ [s]))
      = processLines rest acc chunks
  rw [extractDelta_skips_no_choices entries hch]

theorem stream_object_without_choices_skipped_witness :
    processLines ["data: \x7b\"id\":1\x7d"] "" [] = processLines [] "" []
    ∧ call_ai_stream_lines ["data: \x7b\"id\":1\x7d", "data: \x7b\"choices\":[]\x7d"]
        = Except.ok ("", []) := by
  constructor
  · exact stream_object_without_choices_skipped
      (' ' :: '\x7b' :: '"' :: 'i' :: 'd' :: '"' :: ':' :: '1' :: '\x7d' :: [])
      [] "" [] [("id", Json.num "1")] (by decide) rfl (Or.inl rfl)
  · rfl

/-- C10 as stated is false: the payload `42` parses as JSON and has no
`choices` key, yet Python raises an uncaught `TypeError` at
`'choices' in data` (line 273), aborting the stream instead of skipping
the frame. -/
theorem stream_nonobject_payload_raises :
    jsonLoads "42" = some (Json.num "42")
    ∧ call_ai_stream_lines
        ["data: 42",
         "data: \x7b\"choices\":[\x7b\"delta\":\x7b\"content\":\"He\"\x7d\x7d]\x7d"]
      = Except.error PyError.typeError :=
  ⟨rfl, rfl⟩

theorem lookupKey_setKey_ne (es : List (String × Json)) (k1 k2 : String) (v : Json)
    (h : k1 ≠ k2) : lookupKey (setKey es k1 v) k2 = lookupKey es k2 := by
  induction es with
  | nil => simp [setKey, lookupKey, h]
  | cons kv rest ih =>
    rw [setKey]
    by_cases hk : kv.1 = k1
    · rw [if_pos hk]
      rw [lookupKey, lookupKey, if_neg h, if_neg (fun hc => h (hk.symm.trans hc))]
    · rw [if_neg hk]
      rw [lookupKey, lookupKey]
      by_cases hk2 : kv.1 = k2
      · rw [if_pos hk2, if_pos hk2]
      · rw [if_neg hk2, if_neg hk2, ih]

theorem lookupKey_setKey_self (es : List (String × Json)) (k : String) (v : Json) :
    lookupKey (setKey es k v) k = some v := by
  induction es with
  | nil => simp [setKey, lookupKey]
  | cons kv rest ih =>
    rw [setKey]
    by_cases hk : kv.1 = k
    · rw [if_pos hk, lookupKey, if_pos rfl]
    · rw [if_neg hk, lookupKey, if_neg hk, ih]

theorem lookupKey_extendEntries (base : List (String × Json)) (kwargs : List (String × Json))
    (k : String) (h : ∀ kv ∈ kwargs, kv.1 ≠ k) :
    lookupKey (extendEntries base kwargs) k = lookupKey base k := by
  induction kwargs generalizing base with
  | nil => rfl
  | cons kv rest ih =>
    have hstep : extendEntries base (kv :: rest) = extendEntries (setKey base kv.1 kv.2) rest := rfl
    rw [hstep, ih _ (fun kv2 hm => h kv2 (List.mem_cons_of_mem kv hm)),
        lookupKey_setKey_ne _ _ _ _ (h kv (List.mem_cons_self kv rest))]

/-- C3: for any message list, model selector and extra request options
(which never carry the reserved `model` / `messages` names), both
adapters place the selected model's identifier under
`requests_data.model`, its provider identifier under the top-level
`provider`, the serialised message list under `requests_data.messages`,
and each message serialises to a `\x7brole, content\x7d` object. -/
theorem envelope_provider_model_messages (application : String)
    (messages : List LlmMessage) (model : LlmModel) (kwargs : List (String × Json))
    (hk : ∀ kv ∈ kwargs, kv.1 ≠ "model" ∧ kv.1 ≠ "messages") :
    getKey (call_ai_payload application messages model kwargs) "provider"
        = some (Json.str model.value.provider)
    ∧ getKey (call_ai_requests_data messages model kwargs) "model"
        = some (Json.str model.value.model)
    ∧ getKey (call_ai_requests_data messages model kwargs) "messages"
        = some (Json.arr (messages.map LlmMessage.dump))
    ∧ getKey (call_ai_stream_payload application messages model kwargs) "provider"
        = some (Json.str model.value.provider)
    ∧ getKey (call_ai_stream_requests_data messages model kwargs) "model"
        = some (Json.str model.value.model)
    ∧ getKey (call_ai_stream_requests_data messages model kwargs) "messages"
        = some (Json.arr (messages.map LlmMessage.dump))
    ∧ ∀ m ∈ messages, LlmMessage.dump m
        = Json.obj [("role", Json.str m.role.value), ("content", m.content.dump)] := by
  refine ⟨?_, ?_, ?_, ?_, ?_, ?_, fun m _ => rfl⟩
  · simp [call_ai_payload, getKey, lookupKey]
  · show lookupKey (extendEntries _ kwargs) "model" = _
    rw [lookupKey_extendEntries _ _ _ (fun kv hm => (hk kv hm).1)]
    simp [lookupKey]
  · show lookupKey (extendEntries _ kwargs) "messages" = _
    rw [lookupKey_extendEntries _ _ _ (fun kv hm => (hk kv hm).2)]
    simp [lookupKey]
  · simp [call_ai_stream_payload, getKey, lookupKey]
  · show lookupKey (extendEntries _ kwargs) "model" = _
    rw [lookupKey_extendEntries _ _ _ (fun kv hm => (hk kv hm).1)]
    simp [lookupKey]
  · show lookupKey (extendEntries _ kwargs) "messages" = _
    rw [lookupKey_extendEntries _ _ _ (fun kv hm => (hk kv hm).2)]
    simp [lookupKey]

theorem envelope_provider_model_messages_witness :
    getKey (call_ai_payload "app"
        [⟨LlmMessageRole.SYSTEM, LlmContent.text "hi"⟩] LlmModel.QWEN_235B
        [("temperature", Json.num "0.7")]) "provider" = some (Json.str "qwen")
    ∧ getKey (call_ai_stream_requests_data
        [⟨LlmMessageRole.SYSTEM, LlmContent.text "hi"⟩] LlmModel.QWEN_235B
        [("temperature", Json.num "0.7")]) "model"
        = some (Json.str "qwen3-235b-a22b-instruct-2507") := by
  have h := envelope_provider_model_messages "app"
    [⟨LlmMessageRole.SYSTEM, LlmContent.text "hi"⟩] LlmModel.QWEN_235B
    [("temperature", Json.num "0.7")] (by decide)
  exact ⟨h.1, h.2.2.2.2.1⟩

/-- C5: on a success response, `call_ai` extracts
`choices[0].message.content` from the decoded body; a body that is an
object without the `choices` key raises `KeyError` (the `MalformedResponse`
of the spec's taxonomy) instead of returning a value, and an empty
`choices` list raises `IndexError`. -/
theorem call_ai_success_extraction :
    (∀ (s : String) (extra : List (String × Json)),
        call_ai_extract (Json.obj (("choices",
            Json.arr [Json.obj [("message", Json.obj [("content", Json.str s)])]]) :: extra))
          = Except.ok (Json.str s))
    ∧ (∀ entries : List (String × Json), lookupKey entries "choices" = none →
        call_ai_extract (Json.obj entries) = Except.error PyError.keyError)
    ∧ call_ai_extract (Json.obj [("choices", Json.arr [])]) = Except.error PyError.indexError := by
  refine ⟨fun s extra => rfl, ?_, rfl⟩
  intro entries h
  simp [call_ai_extract, getItemStr, h, bind, Except.bind]

theorem call_ai_success_extraction_witness :
    call_ai_extract (Json.obj [("choices",
        Json.arr [Json.obj [("message", Json.obj [("content", Json.str "hello")])]])])
      = Except.ok (Json.str "hello")
    ∧ call_ai_extract (Json.obj [("object", Json.str "error")])
      = Except.error PyError.keyError :=
  ⟨call_ai_success_extraction.1 "hello" [],
   call_ai_success_extraction.2.1 [("object", Json.str "error")] rfl⟩

/-- C7: the temperature option is validated before use — a parsed float
inside `[0, 2]` is stored under `"temperature"` in the extra options,
while a parse failure (`ValueError` from `float`), a finite value outside
`[0, 2]`, or a non-finite value only logs a warning and leaves the
options unchanged; the validation itself never fails the request. -/
theorem temperature_option_validated :
    (∀ (q : ℚ) (extra : List (String × Json)), 0 ≤ q → q ≤ 2 →
        add_temperature (some (PyFloat.finite q)) extra
            = (setKey extra "temperature" (pyFloatToJson (PyFloat.finite q)), false)
          ∧ lookupKey (add_temperature (some (PyFloat.finite q)) extra).1 "temperature"
            = some (pyFloatToJson (PyFloat.finite q)))
    ∧ (∀ (q : ℚ) (extra : List (String × Json)), ¬(0 ≤ q ∧ q ≤ 2) →
        add_temperature (some (PyFloat.finite q)) extra = (extra, true))
    ∧ (∀ extra : List (String × Json),
        add_temperature (some PyFloat.nan) extra = (extra, true)
        ∧ add_temperature (some PyFloat.inf) extra = (extra, true)
        ∧ add_temperature (some PyFloat.negInf) extra = (extra, true)
        ∧ add_temperature none extra = (extra, true)) := by
  refine ⟨?_, ?_, fun extra => ⟨rfl, rfl, rfl, rfl⟩⟩
  · intro q extra h0 h2
    have hin : (pyFloatLe (PyFloat.finite 0) (PyFloat.finite q)
        && pyFloatLe (PyFloat.finite q) (PyFloat.finite 2)) = true := by
      simp [pyFloatLe, h0, h2]
    constructor
    · simp only [add_temperature]
      rw [if_pos hin]
    · simp only [add_temperature]
      rw [if_pos hin]
      exact lookupKey_setKey_self _ _ _
  · intro q extra h
    have hin : (pyFloatLe (PyFloat.finite 0) (PyFloat.finite q)
        && pyFloatLe (PyFloat.finite q) (PyFloat.finite 2)) = false := by
      simp only [pyFloatLe, Bool.and_eq_false_iff, decide_eq_false_iff_not]
      by_cases h0 : 0 ≤ q
      · exact Or.inr (fun h2 => h ⟨h0, h2⟩)
      · exact Or.inl h0
    simp only [add_temperature]
    rw [if_neg (by rw [hin]; exact Bool.false_ne_true)]

theorem temperature_option_validated_witness :
    add_temperature (some (PyFloat.finite (7 / 10))) []
        = ([("temperature", pyFloatToJson (PyFloat.finite (7 / 10)))], false)
    ∧ add_temperature (some (PyFloat.finite 3)) [] = ([], true) := by
  constructor
  · exact (temperature_option_validated.1 (7 / 10) [] (by norm_num) (by norm_num)).1
  · exact temperature_option_validated.2.1 3 [] (by norm_num)

theorem pdf_to_images_loop_eq_map {α : Type} (perPage : α → String)
    (pages : List α) : ∀ acc, pdf_to_images_loop perPage pages acc = acc ++ pages.map perPage := by
  induction pages with
  | nil => intro acc; simp [pdf_to_images_loop]
  | cons p rest ih =>
    intro acc
    rw [pdf_to_images_loop, ih, List.map_cons, List.append_assoc]
    rfl

/-- C8: `pdf_to_images` produces exactly one base64 string per page, in
document page order (it is the per-page conversion mapped over the
pages), and an empty document yields the empty sequence without error. -/
theorem pdf_to_images_page_per_page :
    (∀ (α : Type) (perPage : α → String) (pages : List α),
        pdf_to_images perPage pages = pages.map perPage)
    ∧ (∀ (α : Type) (perPage : α → String) (pages : List α),
        (pdf_to_images perPage pages).length = pages.length)
    ∧ (∀ (α : Type) (perPage : α → String), pdf_to_images perPage ([] : List α) = [])
    ∧ (∀ (α : Type) (perPage : α → String) (pages : List α) (i : Nat)
        (h1 : i < (pdf_to_images perPage pages).length) (h2 : i < pages.length),
        (pdf_to_images perPage pages).get ⟨i, h1⟩ = perPage (pages.get ⟨i, h2⟩)) := by
  have hmap : ∀ (α : Type) (perPage : α → String) (pages : List α),
      pdf_to_images perPage pages = pages.map perPage := by
    intro α perPage pages
    rw [pdf_to_images, pdf_to_images_loop_eq_map, List.nil_append]
  refine ⟨hmap, ?_, ?_, ?_⟩
  · intro α perPage pages; rw [hmap, List.length_map]
  · intro α perPage; rw [hmap]; rfl
  · intro α perPage pages i h1 h2
    have hme := hmap α perPage pages
    revert h1
    rw [hme]
    intro h1
    simp

example :
    config_save_load_get
      [("api_url", "http://x"), ("application", "app"), ("api_key", "secret "),
       ("timeout", "60"), ("response_format", "text"), ("model", "QWEN_235B"),
       ("temperature", "0.7"), ("use_stream", "true")] "api_key"
      = Except.ok (some "secret") := rfl

example : config_set_value "50%" = Except.error ConfigError.interpolationSyntax := rfl

example :
    config_save_load_get [("api_url", ""), ("api_key", "a\n b")] "api_key"
      = Except.ok (some "a\nb") := rfl

example :
    config_save_load_get [("api_url", "http://x"), ("api_key", "k1")] "api_key"
      = Except.ok (some "k1") := rfl

theorem pdf_to_images_page_per_page_witness :
    pdf_to_images (fun n : Nat => toString n) [10, 20, 30] = ["10", "20", "30"]
    ∧ (pdf_to_images (fun n : Nat => toString n) [10, 20, 30]).get
        ⟨1, by decide⟩ = "20" := by
  constructor
  · exact pdf_to_images_page_per_page.1 Nat (fun n => toString n) [10, 20, 30]
  · exact pdf_to_images_page_per_page.2.2.2 Nat (fun n => toString n) [10, 20, 30] 1
      (by decide) (by decide)

theorem dropWhile_eq_self_of_all (p : Char → Bool) (cs : List Char)
    (h : ∀ c ∈ cs, p c = false) : cs.dropWhile p = cs := by
  induction cs with
  | nil => rfl
  | cons c rest ih =>
    rw [List.dropWhile_cons, h c (List.mem_cons_self c rest)]
    simp [ih (fun x hx => h x (List.mem_cons_of_mem c hx))]

theorem dropWhile_append_of_ne_nil (p : Char → Bool) (xs ys : List Char)
    (h : xs.dropWhile p ≠ []) : (xs ++ ys).dropWhile p = xs.dropWhile p ++ ys := by
  induction xs with
  | nil => exact absurd rfl h
  | cons c rest ih =>
    rw [List.cons_append, List.dropWhile_cons, List.dropWhile_cons] at *
    by_cases hc : p c = true
    · rw [hc] at h ⊢
      simp only [if_pos rfl]
      exact ih h
    · rw [Bool.not_eq_true] at hc
      rw [hc] at h ⊢
      simp

theorem stripRight_rev_of_clean (v : String) (h : pyStripRightChars v.data = v.data) :
    v.data.reverse.dropWhile isPySpace = v.data.reverse := by
  have h2 := congrArg List.reverse h
  rw [pyStripRightChars, List.reverse_reverse] at h2
  exact h2

theorem isPySpace_false_ne (c : Char) (h : isPySpace c = false) : c ≠ '\n' ∧ c ≠ '\r' := by
  constructor
  · intro hc; rw [hc] at h; exact absurd h (by decide)
  · intro hc; rw [hc] at h; exact absurd h (by decide)

theorem str_mk_ne_empty (cs : List Char) (h : cs ≠ []) : String.mk cs ≠ "" := by
  intro hc
  exact h (congrArg String.data hc)

theorem pyStripLeft_keydata (k : String) (hne : k.data ≠ [])
    (hchars : ∀ c ∈ k.data, isPySpace c = false) (tail : List Char) :
    pyStripLeftChars (k.data ++ tail) = k.data ++ tail := by
  cases hcs : k.data with
  | nil => exact absurd hcs hne
  | cons c rest =>
    rw [List.cons_append, pyStripLeftChars, List.dropWhile_cons,
        hchars c (by rw [hcs]; exact List.mem_cons_self c rest)]
    simp

theorem stripRight_append_of_clean (xs ys : List Char)
    (h : ys.reverse.dropWhile isPySpace = ys.reverse) (hy : ys ≠ []) :
    pyStripRightChars (xs ++ ys) = xs ++ ys := by
  rw [pyStripRightChars, List.reverse_append,
      dropWhile_append_of_ne_nil _ _ _ (by rw [h]; simpa using hy), h]
  simp

theorem pyStrip_key_space (k : String) (hne : k.data ≠ [])
    (hchars : ∀ c ∈ k.data, isPySpace c = false) :
    pyStrip (String.mk (k.data ++ [' '])) = k := by
  rw [pyStrip]
  show String.mk (pyStripRightChars (pyStripLeftChars (k.data ++ [' ']))) = k
  rw [pyStripLeft_keydata k hne hchars, pyStripRightChars, List.reverse_append]
  have h1 : [' '].reverse = [' '] := rfl
  rw [h1]
  have h2 : List.dropWhile isPySpace ([' '] ++ k.data.reverse)
      = List.dropWhile isPySpace k.data.reverse := by
    have hsp : isPySpace ' ' = true := by decide
    rw [List.singleton_append, List.dropWhile_cons, hsp]
    simp
  rw [h2, dropWhile_eq_self_of_all _ _ (fun c hc => hchars c (List.mem_reverse.mp hc))]
  simp

theorem pyStrip_space_value (v : String) (hv1 : pyStripLeftChars v.data = v.data)
    (hv2 : pyStripRightChars v.data = v.data) :
    pyStrip (String.mk (' ' :: v.data)) = v := by
  rw [pyStrip]
  show String.mk (pyStripRightChars (pyStripLeftChars (' ' :: v.data))) = v
  have h1 : pyStripLeftChars (' ' :: v.data) = v.data := by
    have hsp : isPySpace ' ' = true := by decide
    rw [pyStripLeftChars, List.dropWhile_cons, hsp, if_pos rfl]
    exact hv1
  rw [h1, hv2]

theorem pyStrip_optLine_ne (k v : String) (hkne : k.data ≠ [])
    (hkchars : ∀ c ∈ k.data, isPySpace c = false)
    (hvne : v.data ≠ []) (hv2 : pyStripRightChars v.data = v.data) :
    pyStrip (optLine (k, v)) = optLine (k, v) := by
  rw [pyStrip]
  show String.mk (pyStripRightChars (pyStripLeftChars
    (k.data ++ (' ' :: '=' :: ' ' :: v.data)))) = optLine (k, v)
  rw [pyStripLeft_keydata k hkne hkchars]
  have hsplit : k.data ++ (' ' :: '=' :: ' ' :: v.data)
      = (k.data ++ [' ', '=', ' ']) ++ v.data := by
    rw [List.append_assoc]
    rfl
  rw [hsplit, stripRight_append_of_clean _ _ (stripRight_rev_of_clean v hv2) hvne, ← hsplit]
  rfl

theorem pyStrip_optLine_empty (k : String) (hkne : k.data ≠ [])
    (hkchars : ∀ c ∈ k.data, isPySpace c = false) :
    pyStrip (optLine (k, "")) = String.mk (k.data ++ [' ', '=']) := by
  rw [pyStrip]
  show String.mk (pyStripRightChars (pyStripLeftChars
    (k.data ++ (' ' :: '=' :: ' ' :: ("" : String).data)))) = String.mk (k.data ++ [' ', '='])
  rw [pyStripLeft_keydata k hkne hkchars]
  have h0 : (k.data ++ (' ' :: '=' :: ' ' :: ("" : String).data))
      = k.data ++ [' ', '=', ' '] := rfl
  rw [h0, pyStripRightChars, List.reverse_append]
  have h1 : ([' ', '=', ' '] : List Char).reverse = [' ', '=', ' '] := rfl
  rw [h1]
  have h2 : List.dropWhile isPySpace ([' ', '=', ' '] ++ k.data.reverse)
      = '=' :: ' ' :: k.data.reverse := by
    show List.dropWhile isPySpace (' ' :: '=' :: ' ' :: k.data.reverse)
      = '=' :: ' ' :: k.data.reverse
    have hsp : isPySpace ' ' = true := by decide
    have heq : isPySpace '=' = false := by decide
    rw [List.dropWhile_cons, hsp, if_pos rfl, List.dropWhile_cons, heq]
    simp
  rw [h2]
  simp [List.reverse_cons, List.append_assoc]

theorem splitAtDelim_clean (xs ys : List Char)
    (h : ∀ c ∈ xs, c ≠ '=' ∧ c ≠ ':') :
    splitAtDelim (xs ++ (' ' :: '=' :: ys)) = some (xs ++ [' '], ys) := by
  induction xs with
  | nil =>
    show splitAtDelim (' ' :: '=' :: ys) = some ([' '], ys)
    rw [splitAtDelim]
    have hs : (' ' = '=' || ' ' = ':') = false := by decide
    rw [hs, if_neg (by simp)]
    rw [splitAtDelim]
    have he : ('=' = '=' || '=' = ':') = true := by decide
    rw [he, if_pos rfl]
  | cons c rest ih =>
    rw [List.cons_append, splitAtDelim]
    have hc := h c (List.mem_cons_self c rest)
    have hd : (c = '=' || c = ':') = false := by
      simp [hc.1, hc.2]
    rw [hd, if_neg (by simp), ih (fun x hx => h x (List.mem_cons_of_mem c hx))]
    rfl

theorem sectionName_not_bracket (c : Char) (rest : List Char) (h : c ≠ '[') :
    sectionName (c :: rest) = none := by
  rw [sectionName]
  simp [h]

theorem splitOpt_optLine (k v : String) (hk : CleanKey k) (hv : CleanValue v) :
    splitOpt (pyStrip (optLine (k, v))) = some (k, v) := by
  obtain ⟨hkne, hklow, hkchars⟩ := hk
  obtain ⟨hv1, hv2, _⟩ := hv
  have hkdelim : ∀ c ∈ k.data, c ≠ '=' ∧ c ≠ ':' :=
    fun c hc => ⟨(hkchars c hc).2.1, (hkchars c hc).2.2.1⟩
  have hkspace : ∀ c ∈ k.data, isPySpace c = false := fun c hc => (hkchars c hc).1
  by_cases hvd : v.data = []
  · have hvempty : v = "" := by
      cases v with
      | mk data => cases hvd; rfl
    subst hvempty
    rw [pyStrip_optLine_empty k hkne hkspace, splitOpt]
    show (match splitAtDelim (k.data ++ [' ', '=']) with
      | some (kcs, vcs) => some (lowerStr (pyStrip (String.mk kcs)), pyStrip (String.mk vcs))
      | none => none) = some (k, "")
    have hsp : k.data ++ ([' ', '='] : List Char) = k.data ++ (' ' :: '=' :: []) := rfl
    rw [hsp, splitAtDelim_clean k.data [] hkdelim]
    show some (lowerStr (pyStrip (String.mk (k.data ++ [' ']))), pyStrip (String.mk [])) = some (k, "")
    rw [pyStrip_key_space k hkne hkspace, hklow]
    rfl
  · rw [pyStrip_optLine_ne k v hkne hkspace hvd hv2, optLine, splitOpt]
    show (match splitAtDelim (k.data ++ (' ' :: '=' :: (' ' :: v.data))) with
      | some (kcs, vcs) => some (lowerStr (pyStrip (String.mk kcs)), pyStrip (String.mk vcs))
      | none => none) = some (k, v)
    rw [splitAtDelim_clean k.data (' ' :: v.data) hkdelim]
    show some (lowerStr (pyStrip (String.mk (k.data ++ [' ']))), pyStrip (String.mk (' ' :: v.data)))
      = some (k, v)
    rw [pyStrip_key_space k hkne hkspace, hklow, pyStrip_space_value v hv1 hv2]

theorem iniStep_optLine (ck : Option String) (acc : List (String × List String)) (k v : String)
    (hk : CleanKey k) (hv : CleanValue v) (hfresh : hasPartsKey acc k = false) :
    iniStep ⟨IniSection.defaultSection, ck, acc⟩ (optLine (k, v))
      = Except.ok ⟨IniSection.defaultSection, some k, acc ++ [(k, [v])]⟩ := by
  obtain ⟨hkne, hklow, hkchars⟩ := hk
  obtain ⟨hv1, hv2, hv3⟩ := hv
  have hkspace : ∀ c ∈ k.data, isPySpace c = false := fun c hc => (hkchars c hc).1
  have hshape : ∃ t, (pyStrip (optLine (k, v))).data = k.data ++ t := by
    by_cases hvd : v.data = []
    · have hvempty : v = "" := by
        cases v with
        | mk d => cases hvd; rfl
      subst hvempty
      exact ⟨[' ', '='], by rw [pyStrip_optLine_empty k hkne hkspace]⟩
    · exact ⟨' ' :: '=' :: ' ' :: v.data,
        by rw [pyStrip_optLine_ne k v hkne hkspace hvd hv2]; rfl⟩
  obtain ⟨t, ht⟩ := hshape
  cases hkd : k.data with
  | nil => exact absurd hkd hkne
  | cons kc kt =>
  have hkcmem : kc ∈ k.data := by rw [hkd]; exact List.mem_cons_self kc kt
  have hne' : pyStrip (optLine (k, v)) ≠ "" := by
    intro hc
    have h2 := congrArg String.data hc
    rw [ht, hkd] at h2
    simp at h2
  have hcomment : headIs (pyStrip (optLine (k, v))).data (fun c => c = '#' || c = ';') = false := by
    rw [ht, hkd, List.cons_append]
    show (decide (kc = '#') || decide (kc = ';')) = false
    simp [(hkchars kc hkcmem).2.2.2.2.1, (hkchars kc hkcmem).2.2.2.2.2.1]
  have hcont : headIs (optLine (k, v)).data isPySpace = false := by
    show headIs (k.data ++ (' ' :: '=' :: ' ' :: v.data)) isPySpace = false
    rw [hkd, List.cons_append]
    exact hkspace kc hkcmem
  have hsect : sectionName (pyStrip (optLine (k, v))).data = none := by
    rw [ht, hkd, List.cons_append]
    exact sectionName_not_bracket kc _ (hkchars kc hkcmem).2.2.2.1
  have hsplit := splitOpt_optLine k v ⟨hkne, hklow, hkchars⟩ ⟨hv1, hv2, hv3⟩
  simp only [iniStep, if_neg hne', hcomment, hcont, hsect, hsplit, Bool.false_eq_true,
    if_false, hfresh]

theorem iniStep_blank (ck : Option String) (acc : List (String × List String)) :
    iniStep ⟨IniSection.defaultSection, ck, acc⟩ ""
      = Except.ok ⟨IniSection.defaultSection, ck, blankAcc acc ck⟩ := by
  cases ck with
  | none => rfl
  | some k => rfl

theorem foldlM_iniStep_cons (st st' : IniState) (line : String) (rest : List String)
    (h : iniStep st line = Except.ok st') :
    List.foldlM iniStep st (line :: rest) = List.foldlM iniStep st' rest := by
  simp [List.foldlM, h, bind, Except.bind]

theorem hasPartsKey_append_single (acc : List (String × List String)) (k0 : String)
    (ps : List String) (k : String) :
    hasPartsKey (acc ++ [(k0, ps)]) k = (hasPartsKey acc k || decide (k0 = k)) := by
  simp [hasPartsKey, List.any_append]

theorem iniFold_options (vals : List (String × String)) :
    ∀ (ck : Option String) (acc : List (String × List String)),
    (∀ kv ∈ vals, CleanKey kv.1 ∧ CleanValue kv.2) →
    (∀ kv ∈ vals, hasPartsKey acc kv.1 = false) →
    (vals.map Prod.fst).Nodup →
    List.foldlM iniStep ⟨IniSection.defaultSection, ck, acc⟩ (vals.map optLine ++ [""])
      = Except.ok ⟨IniSection.defaultSection, lastKeyOf vals ck,
          blankAcc (acc ++ vals.map mkSingle) (lastKeyOf vals ck)⟩ := by
  induction vals with
  | nil =>
    intro ck acc _ _ _
    show List.foldlM iniStep _ [""] = _
    rw [foldlM_iniStep_cons _ _ _ _ (iniStep_blank ck acc)]
    show Except.ok _ = _
    rw [List.map_nil, List.append_nil]
    rfl
  | cons kv rest ih =>
    intro ck acc hclean hfresh hnodup
    have hkv := hclean kv (List.mem_cons_self kv rest)
    have hkveta : (kv.1, kv.2) = kv := rfl
    have hstep : iniStep ⟨IniSection.defaultSection, ck, acc⟩ (optLine kv)
        = Except.ok ⟨IniSection.defaultSection, some kv.1, acc ++ [mkSingle kv]⟩ := by
      have h2 := iniStep_optLine ck acc kv.1 kv.2 hkv.1 hkv.2
        (hfresh kv (List.mem_cons_self kv rest))
      rw [hkveta] at h2
      exact h2
    rw [List.map_cons, List.cons_append, foldlM_iniStep_cons _ _ _ _ hstep]
    have hnodup2 : (rest.map Prod.fst).Nodup := by
      rw [List.map_cons, List.nodup_cons] at hnodup
      exact hnodup.2
    have hkvnotin : kv.1 ∉ rest.map Prod.fst := by
      rw [List.map_cons, List.nodup_cons] at hnodup
      exact hnodup.1
    have hfresh2 : ∀ kv2 ∈ rest, hasPartsKey (acc ++ [mkSingle kv]) kv2.1 = false := by
      intro kv2 hm
      rw [show mkSingle kv = (kv.1, [kv.2]) from rfl, hasPartsKey_append_single]
      have h1 : hasPartsKey acc kv2.1 = false := hfresh kv2 (List.mem_cons_of_mem kv hm)
      have h2 : kv.1 ≠ kv2.1 := by
        intro hc
        exact hkvnotin (hc ▸ List.mem_map_of_mem Prod.fst hm)
      simp [h1, h2]
    rw [ih (some kv.1) (acc ++ [mkSingle kv])
        (fun kv2 hm => hclean kv2 (List.mem_cons_of_mem kv hm)) hfresh2 hnodup2]
    have hlast : lastKeyOf (kv :: rest) ck = lastKeyOf rest (some kv.1) := rfl
    rw [hlast, List.map_cons, List.append_assoc]
    rfl

theorem replaceNLTab_clean (cs : List Char) (h : ∀ c ∈ cs, c ≠ '\n') :
    replaceNLTab cs = cs := by
  induction cs with
  | nil => rfl
  | cons c rest ih =>
    have hc : c ≠ '\n' := h c (List.mem_cons_self c rest)
    rw [replaceNLTab, if_neg hc, ih (fun x hx => h x (List.mem_cons_of_mem c hx))]

theorem splitLinesAux_single (cs : List Char) :
    ∀ acc : List Char, (∀ c ∈ cs, c ≠ '\n' ∧ c ≠ '\r') →
    acc.reverse ++ cs ≠ [] →
    splitLinesAux cs false acc = [String.mk (acc.reverse ++ cs)] := by
  induction cs with
  | nil =>
    intro acc _ hne
    rw [List.append_nil] at hne ⊢
    cases hacc : acc with
    | nil => rw [hacc] at hne; exact absurd rfl hne
    | cons a as => rfl
  | cons c rest ih =>
    intro acc h hne
    have hc := h c (List.mem_cons_self c rest)
    rw [splitLinesAux]
    rw [if_neg (by simp), if_neg hc.2, if_neg hc.1]
    rw [ih (c :: acc) (fun x hx => h x (List.mem_cons_of_mem c hx))
        (by simp), List.reverse_cons, List.append_assoc]
    rfl

theorem entryLines_clean (k v : String) (hk : CleanKey k) (hv : CleanValue v) :
    entryLines (k, v) = [optLine (k, v)] := by
  obtain ⟨hkne, _, hkchars⟩ := hk
  obtain ⟨_, _, hv3⟩ := hv
  rw [entryLines]
  show splitLines (String.mk (k.data ++ (' ' :: '=' :: ' ' :: replaceNLTab v.data)))
    = [optLine (k, v)]
  rw [replaceNLTab_clean v.data (fun c hc => (hv3 c hc).2.1)]
  rw [splitLines]
  show splitLinesAux (k.data ++ (' ' :: '=' :: ' ' :: v.data)) false [] = [optLine (k, v)]
  rw [splitLinesAux_single _ []
    (by
      intro c hc
      rcases List.mem_append.mp hc with h1 | h2
      · exact isPySpace_false_ne c ((hkchars c h1).1)
      · have h4 : c = ' ' ∨ c = '=' ∨ c = ' ' ∨ c ∈ v.data := by simpa using h2
        rcases h4 with rfl | rfl | rfl | h3
        · exact (by decide)
        · exact (by decide)
        · exact (by decide)
        · exact ⟨(hv3 c h3).2.1, (hv3 c h3).2.2⟩)
    (by
      cases hkd : k.data with
      | nil => exact absurd hkd hkne
      | cons a as => simp)]
  rfl

theorem saveLines_clean (vals : List (String × String))
    (h : ∀ kv ∈ vals, entryLines kv = [optLine kv]) :
    saveLines vals = "[DEFAULT]" :: (vals.map optLine ++ [""]) := by
  rw [saveLines]
  have : (vals.map entryLines).foldr (fun a b => a ++ b) [] = vals.map optLine := by
    induction vals with
    | nil => rfl
    | cons kv rest ih =>
      rw [List.map_cons, List.foldr_cons, h kv (List.mem_cons_self kv rest),
          ih (fun x hx => h x (List.mem_cons_of_mem kv hx)), List.map_cons]
      rfl
  rw [this]

theorem lookupParts_addPart_self (list : List (String × List String)) (k : String)
    (p : String) (parts : List String) (h : lookupParts list k = some parts) :
    lookupParts (addPart list k p) k = some (parts ++ [p]) := by
  induction list with
  | nil => exact absurd h (by simp [lookupParts])
  | cons kp rest ih =>
    rw [lookupParts] at h
    rw [addPart]
    by_cases hk : kp.1 = k
    · rw [if_pos hk] at h
      injection h with h2
      cases kp with
      | mk k0 ps =>
        simp only at hk h2
        rw [if_pos hk]
        rw [lookupParts, if_pos hk, h2]
    · rw [if_neg hk] at h
      cases kp with
      | mk k0 ps =>
        simp only at hk
        rw [if_neg hk, lookupParts, if_neg hk]
        exact ih h

theorem lookupParts_addPart_ne (list : List (String × List String)) (k1 k2 : String)
    (p : String) (h : k1 ≠ k2) :
    lookupParts (addPart list k1 p) k2 = lookupParts list k2 := by
  induction list with
  | nil => simp [addPart, lookupParts, h]
  | cons kp rest ih =>
    cases kp with
    | mk k0 ps =>
      rw [addPart]
      by_cases hk : k0 = k1
      · rw [if_pos hk, lookupParts, lookupParts,
            if_neg (fun hc : k0 = k2 => h (hk.symm.trans hc)),
            if_neg (fun hc : k0 = k2 => h (hk.symm.trans hc))]
      · rw [if_neg hk, lookupParts, lookupParts]
        by_cases hk2 : k0 = k2
        · rw [if_pos hk2, if_pos hk2]
        · rw [if_neg hk2, if_neg hk2, ih]

theorem lookupParts_map_single (vals : List (String × String)) (k v : String)
    (hm : (k, v) ∈ vals) (hnodup : (vals.map Prod.fst).Nodup) :
    lookupParts (vals.map mkSingle) k = some [v] := by
  induction vals with
  | nil => exact absurd hm (by simp)
  | cons kv rest ih =>
    rw [List.map_cons, List.nodup_cons] at hnodup
    rcases List.mem_cons.mp hm with h1 | h2
    · rw [← h1, List.map_cons, lookupParts]
      simp [mkSingle]
    · rw [List.map_cons, lookupParts]
      have hne : kv.1 ≠ k := by
        intro hc
        exact hnodup.1 (hc ▸ List.mem_map_of_mem Prod.fst h2)
      rw [show (mkSingle kv).1 = kv.1 from rfl, if_neg hne]
      exact ih h2 hnodup.2

theorem lookupStr_map_finalize (acc : List (String × List String)) (k : String) :
    lookupStr (acc.map (fun kp => (kp.1, pyRstrip (joinParts kp.2)))) k
      = Option.map (fun parts => pyRstrip (joinParts parts)) (lookupParts acc k) := by
  induction acc with
  | nil => rfl
  | cons kp rest ih =>
    rw [List.map_cons, lookupStr, lookupParts]
    by_cases hk : kp.1 = k
    · rw [if_pos hk, if_pos hk]
      rfl
    · rw [if_neg hk, if_neg hk]
      exact ih

theorem pyRstrip_clean (v : String) (h : pyStripRightChars v.data = v.data) :
    pyRstrip v = v := by
  rw [pyRstrip]
  show String.mk (pyStripRightChars v.data) = v
  rw [h]

theorem pyRstrip_newline (v : String) (h : pyStripRightChars v.data = v.data) :
    pyRstrip (v ++ "\n") = v := by
  rw [pyRstrip]
  show String.mk (pyStripRightChars (v.data ++ ['\n'])) = v
  rw [pyStripRightChars, List.reverse_append]
  have h1 : (['\n'] : List Char).reverse = ['\n'] := rfl
  rw [h1]
  have h2 : List.dropWhile isPySpace (['\n'] ++ v.data.reverse)
      = List.dropWhile isPySpace v.data.reverse := by
    have hsp : isPySpace '\n' = true := by decide
    rw [List.singleton_append, List.dropWhile_cons, hsp]
    simp
  rw [h2, stripRight_rev_of_clean v h]
  simp

theorem interpScan_clean (cs : List Char) (h : ∀ c ∈ cs, c ≠ '%') :
    interpScan InterpMode.top cs = true := by
  induction cs with
  | nil => rfl
  | cons c rest ih =>
    rw [interpScan.eq_def]
    simp only [if_neg (h c (List.mem_cons_self c rest))]
    exact ih (fun x hx => h x (List.mem_cons_of_mem c hx))

theorem interpGet_clean (entries : List (String × String)) (cs : List Char) :
    ∀ fuel : Nat, cs.length < fuel → (∀ c ∈ cs, c ≠ '%') →
    interpGet entries fuel cs = Except.ok cs := by
  induction cs with
  | nil =>
    intro fuel hf _
    cases fuel with
    | zero => exact absurd hf (by omega)
    | succ n => rfl
  | cons c rest ih =>
    intro fuel hf h
    cases fuel with
    | zero => exact absurd hf (by omega)
    | succ n =>
      rw [interpGet.eq_def]
      simp only [if_neg (h c (List.mem_cons_self c rest))]
      rw [ih n (by simp at hf; omega) (fun x hx => h x (List.mem_cons_of_mem c hx))]

theorem config_set_value_clean (v : String) (hv : CleanValue v) :
    config_set_value v = Except.ok v := by
  rw [config_set_value, if_pos (interpScan_clean v.data (fun c hc => (hv.2.2 c hc).1))]

theorem lookupStr_append_none (es : List (String × String)) (k0 v0 : String) (k : String)
    (h : lookupStr es k = none) (hne : k0 ≠ k) :
    lookupStr (es ++ [(k0, v0)]) k = none := by
  induction es with
  | nil => simp [lookupStr, hne]
  | cons kv rest ih =>
    rw [lookupStr] at h
    rw [List.cons_append, lookupStr]
    by_cases hk : kv.1 = k
    · rw [if_pos hk] at h; exact absurd h (by simp)
    · rw [if_neg hk] at h ⊢
      exact ih h

theorem setStrKey_fresh (es : List (String × String)) (k v : String)
    (h : lookupStr es k = none) : setStrKey es k v = es ++ [(k, v)] := by
  induction es with
  | nil => rfl
  | cons kv rest ih =>
    rw [lookupStr] at h
    rw [setStrKey]
    by_cases hk : kv.1 = k
    · rw [if_pos hk] at h; exact absurd h (by simp)
    · rw [if_neg hk] at h
      cases kv with
      | mk k0 v0 =>
        simp only at hk
        rw [if_neg hk, List.cons_append, ih h]

theorem config_set_all_aux (vals : List (String × String)) :
    ∀ es : List (String × String),
    (∀ kv ∈ vals, CleanValue kv.2 ∧ lowerStr kv.1 = kv.1) →
    (∀ kv ∈ vals, lookupStr es kv.1 = none) →
    (vals.map Prod.fst).Nodup →
    List.foldlM
      (fun es kv =>
        match config_set_value kv.2 with
        | Except.ok v => Except.ok (setStrKey es (lowerStr kv.1) v)
        | Except.error e => Except.error e)
      es vals = Except.ok (es ++ vals) := by
  induction vals with
  | nil =>
    intro es _ _ _
    rw [List.append_nil]
    rfl
  | cons kv rest ih =>
    intro es hclean hfresh hnodup
    have hkv := hclean kv (List.mem_cons_self kv rest)
    have hstep :
        (match config_set_value kv.2 with
          | Except.ok v => Except.ok (setStrKey es (lowerStr kv.1) v)
          | Except.error e => Except.error e)
          = Except.ok (es ++ [kv]) := by
      rw [config_set_value_clean kv.2 hkv.1]
      show Except.ok (setStrKey es (lowerStr kv.1) kv.2) = _
      rw [hkv.2, setStrKey_fresh es kv.1 kv.2 (hfresh kv (List.mem_cons_self kv rest))]
    rw [List.map_cons, List.nodup_cons] at hnodup
    have hfresh2 : ∀ kv2 ∈ rest, lookupStr (es ++ [kv]) kv2.1 = none := by
      intro kv2 hm
      have hne : kv.1 ≠ kv2.1 := by
        intro hc
        exact hnodup.1 (hc ▸ List.mem_map_of_mem Prod.fst hm)
      exact lookupStr_append_none es kv.1 kv.2 kv2.1 (hfresh kv2 (List.mem_cons_of_mem kv hm)) hne
    calc List.foldlM _ es (kv :: rest)
        = List.foldlM _ (es ++ [kv]) rest := by
          simp only [List.foldlM, hstep, bind, Except.bind]
      _ = Except.ok ((es ++ [kv]) ++ rest) :=
          ih (es ++ [kv]) (fun x hx => hclean x (List.mem_cons_of_mem kv hx)) hfresh2 hnodup.2
      _ = Except.ok (es ++ kv :: rest) := by rw [List.append_assoc]; rfl

theorem config_set_all_clean (vals : List (String × String))
    (hclean : ∀ kv ∈ vals, CleanValue kv.2 ∧ lowerStr kv.1 = kv.1)
    (hnodup : (vals.map Prod.fst).Nodup) :
    config_set_all vals = Except.ok vals := by
  rw [config_set_all]
  have h := config_set_all_aux vals [] hclean (fun kv _ => rfl) hnodup
  rw [List.nil_append] at h
  exact h

theorem lastKeyOf_of_ne_nil (vals : List (String × String)) :
    ∀ dflt, vals ≠ [] → ∃ klast, lastKeyOf vals dflt = some klast := by
  induction vals with
  | nil => intro _ h; exact absurd rfl h
  | cons kv rest ih =>
    intro dflt _
    cases rest with
    | nil => exact ⟨kv.1, rfl⟩
    | cons x xs =>
      obtain ⟨klast, hk⟩ := ih (some kv.1) (by simp)
      exact ⟨klast, hk⟩

/-- C9 (amended): assigning the recognised configuration keys values that
are stripped (no leading/trailing whitespace), single-line and free of
`%`, then saving the configuration file and reloading it, returns every
assigned value unchanged through `get`. -/
theorem config_save_load_roundtrip (vals : List (String × String))
    (hkeys : vals.map Prod.fst = recognizedKeys)
    (hvals : ∀ kv ∈ vals, CleanValue kv.2) :
    ∀ k v, (k, v) ∈ vals → config_save_load_get vals k = Except.ok (some v) := by
  intro k v hm
  have hkeysClean : ∀ s ∈ recognizedKeys, CleanKey s := by decide
  have hnodup : (vals.map Prod.fst).Nodup := by
    rw [hkeys]; decide
  have hkeyClean : ∀ kv ∈ vals, CleanKey kv.1 := fun kv hkv =>
    hkeysClean kv.1 (hkeys ▸ List.mem_map_of_mem Prod.fst hkv)
  have hset : config_set_all vals = Except.ok vals :=
    config_set_all_clean vals (fun kv hkv => ⟨hvals kv hkv, (hkeyClean kv hkv).2.1⟩) hnodup
  have hentry : ∀ kv ∈ vals, entryLines kv = [optLine kv] := fun kv hkv =>
    entryLines_clean kv.1 kv.2 (hkeyClean kv hkv) (hvals kv hkv)
  have hsave : saveLines vals = "[DEFAULT]" :: (vals.map optLine ++ [""]) :=
    saveLines_clean vals hentry
  have hvalsne : vals ≠ [] := by
    intro hc
    rw [hc] at hkeys
    exact absurd hkeys (by decide)
  obtain ⟨klast, hklast⟩ := lastKeyOf_of_ne_nil vals none hvalsne
  have hfold := iniFold_options vals none []
    (fun kv hkv => ⟨hkeyClean kv hkv, hvals kv hkv⟩) (fun kv _ => rfl) hnodup
  rw [hklast] at hfold
  have hread : readIniLines (saveLines vals)
      = Except.ok ((addPart (vals.map mkSingle) klast "").map
          (fun kp => (kp.1, pyRstrip (joinParts kp.2)))) := by
    rw [hsave, readIniLines,
        foldlM_iniStep_cons ⟨IniSection.start, none, []⟩
          ⟨IniSection.defaultSection, none, []⟩ "[DEFAULT]"
          (vals.map optLine ++ [""]) rfl,
        hfold]
    show Except.ok ((blankAcc ([] ++ vals.map mkSingle) (some klast)).map
      (fun kp => (kp.1, pyRstrip (joinParts kp.2)))) = _
    rw [List.nil_append]
    rfl
  have hvclean := hvals (k, v) hm
  have hlookup : lookupStr ((addPart (vals.map mkSingle) klast "").map
      (fun kp => (kp.1, pyRstrip (joinParts kp.2)))) k = some v := by
    rw [lookupStr_map_finalize]
    by_cases hkk : klast = k
    · subst hkk
      rw [lookupParts_addPart_self _ _ _ [v] (lookupParts_map_single vals klast v hm hnodup)]
      show some (pyRstrip (joinParts [v, ""])) = some v
      have hjoin : joinParts [v, ""] = (v ++ "\n") ++ "" := rfl
      rw [hjoin, str_append_empty, pyRstrip_newline v hvclean.2.1]
    · rw [lookupParts_addPart_ne _ _ _ _ hkk,
          lookupParts_map_single vals k v hm hnodup]
      show some (pyRstrip (joinParts [v])) = some v
      have hjoin : joinParts [v] = v := rfl
      rw [hjoin, pyRstrip_clean v hvclean.2.1]
  unfold config_save_load_get
  rw [hset]
  show (match readIniLines (saveLines vals) with
    | Except.error e => Except.error e
    | Except.ok loaded => config_get loaded k) = Except.ok (some v)
  rw [hread]
  show config_get ((addPart (vals.map mkSingle) klast "").map
    (fun kp => (kp.1, pyRstrip (joinParts kp.2)))) k = Except.ok (some v)
  unfold config_get
  rw [hlookup]
  show (match interpGet _ (interpFuel _ v) v.data with
    | Except.ok cs => Except.ok (some (String.mk cs))
    | Except.error e => Except.error e) = Except.ok (some v)
  rw [interpGet_clean _ v.data (interpFuel _ v)
    (by
      have hlen : v.length = v.data.length := rfl
      rw [interpFuel]
      omega)
    (fun c hc => (hvclean.2.2 c hc).1)]

theorem config_save_load_roundtrip_witness :
    config_save_load_get
      [("api_url", "http://localhost"), ("application", "demo"), ("api_key", "k123"),
       ("timeout", "60"), ("response_format", "text"), ("model", "QWEN_235B"),
       ("temperature", "0.7"), ("use_stream", "true")] "temperature"
      = Except.ok (some "0.7") :=
  config_save_load_roundtrip
    [("api_url", "http://localhost"), ("application", "demo"), ("api_key", "k123"),
     ("timeout", "60"), ("response_format", "text"), ("model", "QWEN_235B"),
     ("temperature", "0.7"), ("use_stream", "true")]
    rfl (by decide) "temperature" "0.7" (by decide)

/-- C9 as stated is false: values are not round-tripped verbatim.  A
trailing space is stripped on reload (`"secret "` comes back as
`"secret"`), a value containing a bare `%` is rejected at `set` with a
`ValueError` (interpolation syntax), and a multi-line value with an
indented continuation loses the indentation. -/
theorem config_roundtrip_counterexample :
    config_save_load_get
      [("api_url", ""), ("application", ""), ("api_key", "secret "), ("timeout", "60"),
       ("response_format", "text"), ("model", "QWEN_235B"), ("temperature", "0.7"),
       ("use_stream", "true")] "api_key" = Except.ok (some "secret")
    ∧ "secret" ≠ "secret "
    ∧ config_set_value "50%" = Except.error ConfigError.interpolationSyntax
    ∧ config_save_load_get [("api_url", ""), ("api_key", "a\n b")] "api_key"
        = Except.ok (some "a\nb")
    ∧ "a\nb" ≠ "a\n b" :=
  ⟨rfl, by decide, rfl, rfl, by decide⟩
